import Mathlib

/-!
# dd-trace-go tracer: error reporter, payload encoder and span-context codec

A shallow embedding of `ddtrace/tracer/errors.go`, of the payload encoder that
`ddtrace/tracer/payload_test.go` exercises and of the `Inject` and `Extract`
that `ddtrace/mocktracer/mocktracer_test.go` exercises, with a verification of
their contracts.

Modelling conventions.

* Go `string` is `String`; string concatenation is `++`.
* Go `int` is `Int`; the only arithmetic the file performs on an `int` is
  `summary.count++`, which is embedded with the 64-bit two's-complement wrap
  spelled out (`wrapInt`).
* Go `error` is an interface value: either `nil` or a value with an `Error()`
  method. It is `Option errorValue`, `none` being `nil`.
* `map[errorTopic]errorSummary` is a `Finmap`: a finite map with no order on
  its entries, so that `range` over it yields a multiset of entries.
* A buffered channel with no concurrent sender is the list of the values
  queued in it, oldest first. The queued `*tracerError` pointers are non-nil
  and are represented by the structures they point to.
-/

namespace tracer

/-! ## Go primitives used by errors.go -/

/-- A non-nil Go `error`: the value is observed only through `Error()`. -/
structure errorValue where
  /-- The result of the method `Error()`. -/
  Error : String
  deriving DecidableEq, Repr

/-- The Go interface type `error`; `none` is `nil`. -/
abbrev error := Option errorValue

/-- `errors.New(text)`. -/
def errorsNew (text : String) : error := some ⟨text⟩

/-- `strconv.Itoa(i)`, which is also what the verb `%d` prints for an `int`:
the decimal digits of the magnitude, after a minus sign when `i` is negative. -/
def Itoa (i : Int) : String :=
  if i < 0 then "-" ++ Nat.repr i.natAbs else Nat.repr i.toNat

/-- The verb `%s` of package `fmt` applied to an operand of type `error`: a
nil operand prints as `%!s(<nil>)`, any other one as the result of `Error()`. -/
def fmtErrorS : error → String
  | none => "%!s(<nil>)"
  | some e => e.Error

/-- `fmt.Errorf` builds a non-nil error whose `Error()` is the formatted text. -/
def fmtErrorf (text : String) : error := some ⟨text⟩

/-- The 64-bit two's-complement wrap of an `int` result. -/
def wrapInt (i : Int) : Int := (i + 2 ^ 63) % 2 ^ 64 - 2 ^ 63

/-! ## errors.go -/

/-- The prefix used on each logged error. -/
def errorPrefix : String := "Datadog Tracer Error: "

/-- The type `errorTopic` is declared as `int`. -/
abbrev errorTopic := Int

/-- An error with an unknown topic (`iota` starts at 0). -/
def topicUnknown : errorTopic := 0

/-- An error that occurred when encoding into the payload. -/
def topicEncoding : errorTopic := 1

/-- The span buffer has reached its limit. -/
def topicSpanBuffer : errorTopic := 2

/-- The trace buffer has reached its limit. -/
def topicTraceBuffer : errorTopic := 3

/-- An error that occurred flushing the payload to the transport. -/
def topicTransport : errorTopic := 4

/-- The method `func (t errorTopic) String() string`. -/
def errorTopic.String (t : errorTopic) : String :=
  if t = topicEncoding then "encoding error"
  else if t = topicSpanBuffer then "span buffer full"
  else if t = topicTraceBuffer then "trace buffer full"
  else if t = topicTransport then "transport error"
  else "unknown error"

/-- The struct `tracerError`. -/
structure tracerError where
  topic : errorTopic
  err : error
  deriving DecidableEq, Repr

/-- The method `func (te *tracerError) Error() string`, that is
`fmt.Sprintf("%s (%s)", te.topic, te.err)`: `te.topic` is a `fmt.Stringer`, so
the first `%s` prints `te.topic.String()`. -/
def tracerError.Error (te : tracerError) : String :=
  errorTopic.String te.topic ++ " (" ++ fmtErrorS te.err ++ ")"

/-- The function `spanBufferError`; its error is `fmt.Errorf("size: %d", size)`. -/
def spanBufferError (size : Int) : tracerError :=
  { topic := topicSpanBuffer, err := fmtErrorf ("size: " ++ Itoa size) }

/-- The function `traceBufferError`; its error is
`fmt.Errorf("traces lost: %d", lostCount)`. -/
def traceBufferError (lostCount : Int) : tracerError :=
  { topic := topicTraceBuffer, err := fmtErrorf ("traces lost: " ++ Itoa lostCount) }

/-- The function `transportError`; its error is
`fmt.Errorf("%s; traces lost: %d", err, lostCount)`. -/
def transportError (err : error) (lostCount : Int) : tracerError :=
  { topic := topicTransport,
    err := fmtErrorf (fmtErrorS err ++ "; traces lost: " ++ Itoa lostCount) }

/-- The function `encodingError`, which keeps the passed error as it is. -/
def encodingError (err : error) : tracerError :=
  { topic := topicEncoding, err := err }

/-- The struct `errorSummary`. -/
structure errorSummary where
  count : Int
  /-- The field `example` (a reserved word here, hence the underscore). -/
  example_ : String
  deriving DecidableEq, Repr

/-- The zero value of `errorSummary`, which indexing a map yields for a key it
does not hold. -/
def errorSummary.zero : errorSummary := { count := 0, example_ := "" }

/-- The type `map[errorTopic]errorSummary`. -/
abbrev summaryMap := Finmap (fun _ : errorTopic => errorSummary)

/-- The index expression `errs[t]`. -/
def summaryMap.index (errs : summaryMap) (t : errorTopic) : errorSummary :=
  (errs.lookup t).getD errorSummary.zero

/-- A receive-only buffered channel of `*tracerError` with no concurrent
sender: the queued errors, oldest first. -/
abbrev errChan := List tracerError

/-- The body of the `case err := <-ch` branch of `newErrorSummary`. -/
def newErrorSummary.receive (errs : summaryMap) (err : tracerError) : summaryMap :=
  let summary := summaryMap.index errs err.topic
  let summary := { summary with count := wrapInt (summary.count + 1) }
  let summary :=
    if summary.example_ = "" then { summary with example_ := err.Error } else summary
  errs.insert err.topic summary

/-- The `for { select { ... } }` loop of `newErrorSummary`: a receive succeeds
exactly when the channel holds a value, the `default` branch is taken exactly
when it is empty. The result is the returned map and the channel as the call
leaves it. -/
def newErrorSummary.loop (errs : summaryMap) : errChan → summaryMap × errChan
  | [] => (errs, [])
  | err :: ch => newErrorSummary.loop (newErrorSummary.receive errs err) ch

/-- The function `newErrorSummary`, with the state of the channel after the
call as second component. -/
def newErrorSummary (ch : errChan) : summaryMap × errChan :=
  newErrorSummary.loop ∅ ch

/-- The message `logErrors` passes to `log.Println` for one summary. -/
def logErrors.line (v : errorSummary) : String :=
  let repeat_ := if v.count > 1 then " (repeated " ++ Itoa v.count ++ " times)" else ""
  errorPrefix ++ v.example_ ++ repeat_

/-- The function `logErrors`: the messages passed to `log.Println`, one per
entry the `range` over the map visits, in no particular order, and the state
of the channel after the call. -/
def logErrors (ch : errChan) : Multiset String × errChan :=
  let r := newErrorSummary ch
  (r.1.entries.map (fun e => logErrors.line e.2), r.2)

/-! ## Vocabulary of the contract -/

/-- The number of queued errors whose topic is `t`. -/
def topicCount (q : errChan) (t : errorTopic) : Nat :=
  q.countP (fun e => decide (e.topic = t))

/-- The earliest queued error whose topic is `t`, if there is one. -/
def firstOfTopic (q : errChan) (t : errorTopic) : Option tracerError :=
  q.find? (fun e => decide (e.topic = t))

/-- The set of topics that occur in the queue. -/
def topicsOf (q : errChan) : Finset errorTopic :=
  (q.map tracerError.topic).toFinset

/-- The value a counter started at zero holds after one wrapping increment per
queued error of topic `t`. -/
def wrappedCount (q : errChan) (t : errorTopic) : Int :=
  q.foldl (fun c e => if e.topic = t then wrapInt (c + 1) else c) 0

/-- The value of a decimal digit character. -/
def digitValue (c : Char) : Nat := c.toNat - 48

/-- The number a sequence of decimal digits denotes. -/
def readDigits (cs : List Char) : Nat := cs.foldl (fun a c => a * 10 + digitValue c) 0

/-- Reading a decimal integer back: an optional minus sign, then digits. -/
def readDecimal (s : String) : Int :=
  match s.data with
  | [] => 0
  | c :: cs => if c = '-' then -(readDigits cs : Int) else (readDigits (c :: cs) : Int)

/-- The five topics `errors.go` declares. -/
def definedTopics : List errorTopic :=
  [topicUnknown, topicEncoding, topicSpanBuffer, topicTraceBuffer, topicTransport]

/-- The queue of `TestErrorSummary`. -/
def testQueue : errChan :=
  [ encodingError (errorsNew "encoding error message 1"),
    encodingError (errorsNew "encoding error message 2"),
    encodingError (errorsNew "encoding error message 3"),
    encodingError (errorsNew "encoding error message 4"),
    traceBufferError 1, traceBufferError 2, traceBufferError 3,
    transportError (errorsNew "transport error msg") 10 ]

/-! ## The payload encoder

`payload.go` is not among the sources; `payload_test.go` exercises it through
`newPayload`, `push`, `reset`, `itemCount` and `io.Reader`, and compares what
is read with the msgpack encoding of the slice of pushed items. Bytes are
natural numbers below 256. -/

/-- Modelled from the spec: the type `payload` of the missing `payload.go`, a
running item count and a body buffer holding the encodings of the pushed
items, kept apart from the header bytes. -/
structure payload where
  count : Nat
  body : List Nat
  deriving DecidableEq, Repr

/-- Modelled from the spec: `newPayload()` of the missing `payload.go`, the
payload in the empty-array state. -/
def newPayload : payload := { count := 0, body := [] }

/-- Modelled from the spec: `push` of the missing `payload.go` serializes the
item with the structured-value encoder `enc`, appends the bytes to the body
buffer and increments the item count by one. -/
def payload.push {α : Type} (enc : α → List Nat) (p : payload) (item : α) : payload :=
  { count := p.count + 1, body := p.body ++ enc item }

/-- Modelled from the spec: `reset` of the missing `payload.go` discards the
accumulated body bytes and sets the item count to zero. -/
def payload.reset (_p : payload) : payload := { count := 0, body := [] }

/-- Modelled from the spec: `itemCount` of the missing `payload.go` returns
the current push count. -/
def payload.itemCount (p : payload) : Nat := p.count

/-- Modelled from the spec: the count-to-width rule table of the missing
`payload.go` for the array header, which is the msgpack one: `fixarray` up to
15 items, `array 16` up to 65535, `array 32` above (the count is written
big-endian, on 32 bits in the widest form). -/
def arrayHeader (n : Nat) : List Nat :=
  if n ≤ 15 then [0x90 + n]
  else if n ≤ 65535 then [0xdc, n / 2 ^ 8 % 256, n % 256]
  else [0xdd, n / 2 ^ 24 % 256, n / 2 ^ 16 % 256, n / 2 ^ 8 % 256, n % 256]

/-- Modelled from the spec: reading the payload of the missing `payload.go`
from the start (`ioutil.ReadAll(p)`) presents the header synthesized for the
current count, then the body, as one stream. -/
def payload.read (p : payload) : List Nat := arrayHeader p.count ++ p.body

/-- An operation on a payload. -/
inductive payloadOp (α : Type) where
  | push (item : α)
  | reset

/-- Whether an operation is a push. -/
def payloadOp.isPush {α : Type} : payloadOp α → Bool
  | .push _ => true
  | .reset => false

/-- The effect of one operation. -/
def payload.apply {α : Type} (enc : α → List Nat) (p : payload) : payloadOp α → payload
  | .push item => p.push enc item
  | .reset => p.reset

/-- The effect of a sequence of operations, first to last. -/
def payload.run {α : Type} (enc : α → List Nat) (p : payload) (ops : List (payloadOp α)) :
    payload :=
  ops.foldl (payload.apply enc) p

/-! ### The reference codec

What `payload_test.go` compares the payload with: the msgpack encoding of a
slice (`codec.NewEncoder(..).Encode(items)`) and the msgpack decoding of a
stream into a slice (`codec.NewDecoder(..).Decode(&got)`). -/

/-- The msgpack encoding of the array `items`, given the encoding of an item:
the array header for the length, then the items in order. -/
def msgpackEncodeArray {α : Type} (enc : α → List Nat) (items : List α) : List Nat :=
  arrayHeader items.length ++ (items.map enc).flatten

/-- The msgpack decoding of an array header: the announced length and the
rest of the stream. -/
def msgpackDecodeArrayHeader : List Nat → Option (Nat × List Nat)
  | [] => none
  | b :: rest =>
    if 0x90 ≤ b ∧ b ≤ 0x9f then some (b - 0x90, rest)
    else if b = 0xdc then
      match rest with
      | b1 :: b0 :: rest => some (b1 * 2 ^ 8 + b0, rest)
      | _ => none
    else if b = 0xdd then
      match rest with
      | b3 :: b2 :: b1 :: b0 :: rest => some (b3 * 2 ^ 24 + b2 * 2 ^ 16 + b1 * 2 ^ 8 + b0, rest)
      | _ => none
    else none

/-- Decoding `n` consecutive items with the item decoder `dec`. -/
def msgpackDecodeItems {α : Type} (dec : List Nat → Option (α × List Nat)) :
    Nat → List Nat → Option (List α × List Nat)
  | 0, bs => some ([], bs)
  | n + 1, bs =>
    match dec bs with
    | none => none
    | some (x, bs) =>
      match msgpackDecodeItems dec n bs with
      | none => none
      | some (xs, bs) => some (x :: xs, bs)

/-- The msgpack decoding of an array: the header, then as many items as it
announces; the result is the items and the bytes left over. -/
def msgpackDecodeArray {α : Type} (dec : List Nat → Option (α × List Nat))
    (bs : List Nat) : Option (List α × List Nat) :=
  match msgpackDecodeArrayHeader bs with
  | none => none
  | some (n, bs) => msgpackDecodeItems dec n bs

/-- The msgpack encoding of a non-negative integer below `2 ^ 64`: positive
fixint, then `uint 8`, `uint 16`, `uint 32`, `uint 64`, big-endian. -/
def msgpackEncodeUint (n : Nat) : List Nat :=
  if n < 2 ^ 7 then [n]
  else if n < 2 ^ 8 then [0xcc, n]
  else if n < 2 ^ 16 then [0xcd, n / 2 ^ 8 % 256, n % 256]
  else if n < 2 ^ 32 then [0xce, n / 2 ^ 24 % 256, n / 2 ^ 16 % 256, n / 2 ^ 8 % 256, n % 256]
  else [0xcf, n / 2 ^ 56 % 256, n / 2 ^ 48 % 256, n / 2 ^ 40 % 256, n / 2 ^ 32 % 256,
    n / 2 ^ 24 % 256, n / 2 ^ 16 % 256, n / 2 ^ 8 % 256, n % 256]

/-- The msgpack decoding of a non-negative integer. -/
def msgpackDecodeUint : List Nat → Option (Nat × List Nat)
  | [] => none
  | b :: rest =>
    if b < 2 ^ 7 then some (b, rest)
    else if b = 0xcc then
      match rest with
      | b0 :: rest => some (b0, rest)
      | _ => none
    else if b = 0xcd then
      match rest with
      | b1 :: b0 :: rest => some (b1 * 2 ^ 8 + b0, rest)
      | _ => none
    else if b = 0xce then
      match rest with
      | b3 :: b2 :: b1 :: b0 :: rest => some (b3 * 2 ^ 24 + b2 * 2 ^ 16 + b1 * 2 ^ 8 + b0, rest)
      | _ => none
    else if b = 0xcf then
      match rest with
      | b7 :: b6 :: b5 :: b4 :: b3 :: b2 :: b1 :: b0 :: rest =>
        some (b7 * 2 ^ 56 + b6 * 2 ^ 48 + b5 * 2 ^ 40 + b4 * 2 ^ 32
          + b3 * 2 ^ 24 + b2 * 2 ^ 16 + b1 * 2 ^ 8 + b0, rest)
      | _ => none
    else none

/-- The ints 1 to `n`, as the tests push them. -/
def intsUpTo (n : Nat) : List Nat := (List.range n).map (· + 1)

end tracer

namespace mocktracer

/-! ## The span-context codec

`mocktracer.go` is not among the sources; `mocktracer_test.go` exercises its
`Inject` and `Extract` on text-map carriers. A Go `map[string]string` is an
association list with distinct keys: the list order stands for the order in
which a `range` over the map visits the entries, which Go leaves unspecified,
so a statement about a scan is made for every order. A `uint64` is a natural
number below `2 ^ 64`. The lower-casing of baggage keys (`strings.ToLower`) is
a parameter `lower` of the codec, so a statement about it is made for every
lower-casing of strings, the Unicode one included. -/

/-- The errors `Inject` and `Extract` return (declared in package `tracer`). -/
inductive propagationError where
  | ErrInvalidCarrier
  | ErrInvalidSpanContext
  | ErrSpanContextCorrupted
  | ErrSpanContextNotFound
  deriving DecidableEq, Repr

/-- The type `map[string]string`, underlying `tracer.TextMapCarrier`. -/
abbrev textMap := AList (fun _ : String => String)

/-- Modelled from the spec: the fixed trace-id key of the missing
`mocktracer.go` (the literal is implementation-defined; this is the tracer's
default header). -/
def traceHeader : String := "x-datadog-trace-id"

/-- Modelled from the spec: the fixed span-id key of the missing
`mocktracer.go`. -/
def spanHeader : String := "x-datadog-parent-id"

/-- Modelled from the spec: the fixed baggage prefix of the missing
`mocktracer.go`. -/
def baggagePrefix : String := "ot-baggage-"

/-- Lower-casing of the ASCII letters of a string. On a string of ASCII
characters this is what `strings.ToLower` returns; it serves to evaluate the
codec on the inputs of the tests, which are ASCII. The codec itself takes the
lower-casing of strings as a parameter `lower`, which stands for
`strings.ToLower` on all strings: its Unicode case tables are not part of the
sources. -/
def asciiToLower (s : String) : String := String.mk (s.data.map Char.toLower)

/-- Modelled from the spec: the type `spanContext` of the missing
`mocktracer.go`, a trace id, a span id and a baggage mapping. -/
structure spanContext where
  traceID : Nat
  spanID : Nat
  baggage : textMap
  deriving DecidableEq

/-- Modelled from the spec: `setBaggageItem` of the missing `mocktracer.go`
stores the value under the lower-cased key; `lower` is `strings.ToLower`. -/
def spanContext.setBaggageItem (sc : spanContext) (lower : String → String) (k v : String) :
    spanContext :=
  { sc with baggage := sc.baggage.insert (lower k) v }

/-- Modelled from the spec: `baggageItem` of the missing `mocktracer.go` looks
the lower-cased key up; a key that is not there gives the empty string;
`lower` is `strings.ToLower`. -/
def spanContext.baggageItem (sc : spanContext) (lower : String → String) (k : String) :
    String :=
  (sc.baggage.lookup (lower k)).getD ""

/-- A carrier, passed as `interface{}`: a text map, or a value without the
key-value capability, such as the `int` of the tests. -/
inductive Carrier where
  | textMap (m : textMap)
  | other (v : Int)
  deriving DecidableEq

/-- The decimal string form of a `uint64` (`strconv.FormatUint(n, 10)`). -/
def FormatUint (n : Nat) : String := Nat.repr n

/-- Parsing a non-negative base-10 64-bit integer (`strconv.ParseUint(s, 10, 64)`):
one or more decimal digits denoting a number below `2 ^ 64`. -/
def ParseUint (s : String) : Option Nat :=
  if s.data ≠ [] ∧ s.data.all Char.isDigit = true then
    if tracer.readDigits s.data < 2 ^ 64 then some (tracer.readDigits s.data) else none
  else none

/-- Modelled from the spec: `Inject` of the missing `mocktracer.go`. It fails
with `ErrInvalidCarrier` on a carrier that is not a settable key-value
mapping, then with `ErrInvalidSpanContext` on a context whose trace id or span
id is zero; otherwise it writes the decimal trace id under the trace-id key,
the decimal span id under the span-id key and every baggage value under the
baggage prefix followed by its key. The result is the error (`none` is `nil`)
and the carrier as the call leaves it. -/
def Inject (context : spanContext) (carrier : Carrier) : Option propagationError × Carrier :=
  match carrier with
  | .other _ => (some .ErrInvalidCarrier, carrier)
  | .textMap m =>
    if context.traceID = 0 ∨ context.spanID = 0 then (some .ErrInvalidSpanContext, carrier)
    else
      let m := m.insert traceHeader (FormatUint context.traceID)
      let m := m.insert spanHeader (FormatUint context.spanID)
      let m := context.baggage.entries.foldl
        (fun m e => m.insert ( baggagePrefix ++ e.1) e.2) m
      (none, .textMap m)

/-- What the scan of `Extract` has identified so far: the value under the
trace-id key, the value under the span-id key and the baggage collected. -/
structure scanState where
  trace : Option String
  span : Option String
  sc : spanContext

/-- Modelled from the spec: what the scan of `Extract` of the missing
`mocktracer.go` does with one entry of the carrier; `lower` is
`strings.ToLower`. -/
def Extract.visit (lower : String → String) (st : scanState) (key v : String) : scanState :=
  let st := if key = traceHeader then { st with trace := some v } else st
  let st := if key = spanHeader then { st with span := some v } else st
  if baggagePrefix.data.isPrefixOf key.data then
    let k := String.mk (key.data.drop baggagePrefix.data.length)
    { st with sc := st.sc.setBaggageItem lower k v }
  else st

/-- Modelled from the spec: the single scan of all entries of the carrier that
`Extract` of the missing `mocktracer.go` makes, in the order the map yields
them, starting from an empty context. -/
def Extract.scan (lower : String → String) (m : textMap) : scanState :=
  m.entries.foldl (fun st e => Extract.visit lower st e.1 e.2)
    { trace := none, span := none, sc := { traceID := 0, spanID := 0, baggage := ∅ } }

/-- Modelled from the spec: `Extract` of the missing `mocktracer.go`. It fails
with `ErrInvalidCarrier` on a carrier that is not an iterable key-value
mapping; it scans all entries once; it fails with `ErrSpanContextNotFound`
when the trace-id key is absent, with `ErrSpanContextCorrupted` when the
trace-id value does not parse, when the span-id key is absent or when its
value does not parse; otherwise it returns the context with the parsed ids and
the collected baggage. The baggage keys are lower-cased by `lower`, which is
`strings.ToLower`. -/
def Extract (lower : String → String) (carrier : Carrier) :
    Except propagationError spanContext :=
  match carrier with
  | .other _ => .error .ErrInvalidCarrier
  | .textMap m =>
    let st := Extract.scan lower m
    match st.trace with
    | none => .error .ErrSpanContextNotFound
    | some tv =>
      match ParseUint tv with
      | none => .error .ErrSpanContextCorrupted
      | some traceID =>
        match st.span with
        | none => .error .ErrSpanContextCorrupted
        | some sv =>
          match ParseUint sv with
          | none => .error .ErrSpanContextCorrupted
          | some spanID => .ok { st.sc with traceID := traceID, spanID := spanID }

deriving instance DecidableEq for Except

/-- The context of `TestTracerInject`, with two baggage entries. -/
def injectContext : spanContext :=
  { traceID := 1, spanID := 2, baggage := ((∅ : textMap).insert "A" "B").insert "C" "D" }

/-- The context of the consistency test of `TestTracerExtract`. -/
def consistencyContext : spanContext :=
  { traceID := 1, spanID := 2, baggage := ((∅ : textMap).insert "a" "B").insert "C" "D" }

/-- A complete context whose two baggage keys differ by case only. -/
def collidingContext : spanContext :=
  { traceID := 1, spanID := 2, baggage := ((∅ : textMap).insert "a" "B").insert "A" "C" }

/-- The helper `carry` of `TestTracerExtract`, on a list of key/value pairs:
the text map holding them, a later pair replacing an earlier one with the same
key. -/
def carry (kv : List (String × String)) : Carrier :=
  .textMap (kv.foldl (fun m e => m.insert e.1 e.2) ∅)

end mocktracer

namespace tracer

/-! ## Lemmas on the drain loop -/

theorem wrapInt_of_bounds (i : Int) (h1 : -2 ^ 63 ≤ i) (h2 : i < 2 ^ 63) : wrapInt i = i := by
  unfold wrapInt
  omega

theorem tracerError.Error_ne_empty (te : tracerError) : te.Error ≠ "" := by
  intro h
  have h2 := congrArg String.length h
  simp only [tracerError.Error, String.length_append] at h2
  have h3 : ")".length = 1 := by decide
  have h4 : "".length = 0 := by decide
  omega

theorem newErrorSummary.loop_eq (errs : summaryMap) (q : errChan) :
    newErrorSummary.loop errs q = (q.foldl newErrorSummary.receive errs, []) := by
  induction q generalizing errs with
  | nil => rfl
  | cons e q ih => simp [newErrorSummary.loop, ih]

theorem firstOfTopic_append (q : errChan) (e : tracerError) (t : errorTopic) :
    firstOfTopic (q ++ [e]) t
      = (firstOfTopic q t).or (if e.topic = t then some e else none) := by
  unfold firstOfTopic
  rw [List.find?_append]
  by_cases h : e.topic = t <;> simp [List.find?, h]

theorem wrappedCount_append (q : errChan) (e : tracerError) (t : errorTopic) :
    wrappedCount (q ++ [e]) t
      = if e.topic = t then wrapInt (wrappedCount q t + 1) else wrappedCount q t := by
  simp [wrappedCount, List.foldl_append]

theorem wrappedCount_of_none (q : errChan) (t : errorTopic) (h : firstOfTopic q t = none) :
    wrappedCount q t = 0 := by
  induction q using List.reverseRecOn with
  | nil => rfl
  | append_singleton q e ih =>
    rw [firstOfTopic_append] at h
    rw [wrappedCount_append]
    by_cases h2 : e.topic = t
    · simp [h2] at h
    · simp only [if_neg h2] at h ⊢
      exact ih (by simpa using h)

/-- The loop invariant of `newErrorSummary`: what the map holds for a topic
after the errors of `q` have been received, in terms of the earliest error of
that topic and of the wrapping counter. -/
theorem lookup_foldl_receive (q : errChan) (t : errorTopic) :
    (q.foldl newErrorSummary.receive ∅).lookup t
      = (firstOfTopic q t).map
          (fun e => ({ count := wrappedCount q t, example_ := e.Error } : errorSummary)) := by
  induction q using List.reverseRecOn with
  | nil => simp [firstOfTopic]
  | append_singleton q e ih =>
    rw [List.foldl_append, firstOfTopic_append, wrappedCount_append]
    simp only [List.foldl_cons, List.foldl_nil]
    by_cases h : e.topic = t
    · subst h
      simp only [newErrorSummary.receive, Finmap.lookup_insert, summaryMap.index, ih, if_true]
      cases hf : firstOfTopic q e.topic with
      | none =>
        have hw : wrappedCount q e.topic = 0 := wrappedCount_of_none q e.topic hf
        simp [errorSummary.zero, hw]
      | some e0 =>
        simp [tracerError.Error_ne_empty]
    · have h2 : t ≠ e.topic := fun h3 => h h3.symm
      simp only [newErrorSummary.receive, Finmap.lookup_insert_of_ne _ h2, ih, if_neg h]
      simp

theorem topicCount_le_length (q : errChan) (t : errorTopic) : topicCount q t ≤ q.length :=
  List.countP_le_length _

theorem wrappedCount_eq_topicCount (q : errChan) (t : errorTopic) (h : q.length < 2 ^ 63) :
    wrappedCount q t = (topicCount q t : Int) := by
  induction q using List.reverseRecOn with
  | nil => rfl
  | append_singleton q e ih =>
    have hlen : q.length + 1 < 2 ^ 63 := by simpa using h
    have ih2 := ih (by omega)
    have hle := topicCount_le_length q t
    rw [wrappedCount_append, ih2]
    unfold topicCount at hle ⊢
    rw [List.countP_append]
    by_cases h2 : e.topic = t
    · simp only [if_pos h2, List.countP_singleton, h2, decide_True, if_true]
      rw [wrapInt_of_bounds _ (by omega) (by omega)]
      push_cast
      rfl
    · simp [h2]

theorem mem_topicsOf (q : errChan) (t : errorTopic) :
    t ∈ topicsOf q ↔ ∃ e ∈ q, e.topic = t := by
  simp [topicsOf]

theorem firstOfTopic_isSome (q : errChan) (t : errorTopic) :
    (firstOfTopic q t).isSome ↔ t ∈ topicsOf q := by
  simp [firstOfTopic, mem_topicsOf]

/-- The key set of the map built from `q` is the set of topics of `q`. -/
theorem keys_foldl_receive (q : errChan) :
    (q.foldl newErrorSummary.receive ∅).keys = topicsOf q := by
  ext t
  rw [Finmap.mem_keys, ← Finmap.lookup_isSome, lookup_foldl_receive, ← firstOfTopic_isSome]
  cases firstOfTopic q t <;> simp

/-- The entries of a map are the image of its key set under indexing. -/
theorem entries_eq_keys_map (errs : summaryMap) :
    errs.entries = errs.keys.val.map (fun t => (⟨t, summaryMap.index errs t⟩ : Sigma _)) := by
  induction errs using Finmap.induction_on with
  | H a =>
    rw [Finmap.keys_val, AList.toFinmap_entries]
    simp only [AList.keys, List.keys, Multiset.map_coe, List.map_map]
    congr 1
    conv_lhs => rw [← List.map_id a.entries]
    apply List.map_congr_left
    intro e he
    have h1 : a.lookup e.1 = some e.2 :=
      List.mem_dlookup a.nodupKeys (by cases e; exact he)
    cases e with
    | mk k v =>
      simp only [summaryMap.index, Function.comp, Finmap.lookup_toFinmap, id]
      simp only at h1
      rw [h1]
      rfl

/-! ## Lemmas on decimal printing -/

theorem digitValue_digitChar (k : Nat) (h : k < 10) : digitValue (Nat.digitChar k) = k := by
  interval_cases k <;> rfl

theorem digitChar_ne_minus (k : Nat) (h : k < 10) : Nat.digitChar k ≠ '-' := by
  interval_cases k <;> decide

theorem foldl_toDigitsCore (fuel n : Nat) (ds : List Char) (h : n < fuel) :
    (Nat.toDigitsCore 10 fuel n ds).foldl (fun a c => a * 10 + digitValue c) 0
      = ds.foldl (fun a c => a * 10 + digitValue c) n := by
  induction fuel generalizing n ds with
  | zero => omega
  | succ fuel ih =>
    have hd : digitValue (Nat.digitChar (n % 10)) = n % 10 :=
      digitValue_digitChar _ (Nat.mod_lt _ (by decide))
    unfold Nat.toDigitsCore
    by_cases h0 : n / 10 = 0
    · simp only [h0, if_true, List.foldl_cons, hd]
      congr 1
      omega
    · simp only [h0, if_false]
      rw [ih (n / 10) _ (by omega)]
      simp only [List.foldl_cons, hd]
      congr 1
      omega

theorem toDigitsCore_head (fuel n : Nat) (ds : List Char) :
    ∃ k tl, k < 10 ∧ Nat.toDigitsCore 10 (fuel + 1) n ds = Nat.digitChar k :: tl := by
  induction fuel generalizing n ds with
  | zero =>
    refine ⟨n % 10, ds, Nat.mod_lt _ (by decide), ?_⟩
    simp [Nat.toDigitsCore]
  | succ fuel ih =>
    unfold Nat.toDigitsCore
    by_cases h0 : n / 10 = 0
    · exact ⟨n % 10, ds, Nat.mod_lt _ (by decide), by simp [h0]⟩
    · simp only [h0, if_false]
      exact ih _ _

theorem readDigits_repr (n : Nat) : readDigits (Nat.repr n).data = n := by
  simp only [Nat.repr, Nat.toDigits, readDigits, List.asString]
  rw [foldl_toDigitsCore _ _ _ (by omega)]
  rfl

/-- The decimal text `Itoa` prints reads back as the integer it was given. -/
theorem readDecimal_Itoa (i : Int) : readDecimal (Itoa i) = i := by
  unfold Itoa
  by_cases h : i < 0
  · simp only [h, if_true, readDecimal, String.data_append]
    have h1 : "-".data = ['-'] := rfl
    simp only [h1, List.singleton_append, if_true]
    rw [readDigits_repr i.natAbs]
    omega
  · simp only [h, if_false, readDecimal]
    obtain ⟨k, tl, hk, htl⟩ := toDigitsCore_head i.toNat i.toNat []
    have h2 := readDigits_repr i.toNat
    have h3 : (Nat.repr i.toNat).data = Nat.digitChar k :: tl := by
      simp only [Nat.repr, Nat.toDigits, List.asString]
      exact htl
    rw [h3] at h2
    simp only [h3, digitChar_ne_minus k hk, if_false, h2]
    omega

/-! ## The contract of the error reporter -/

/-- C1: for a queue `q` (a Go channel holds fewer than `2 ^ 63` values), the
map returned by `newErrorSummary` has as key set exactly the set of topics
occurring in `q`, and the count it holds for each topic is the number of
queued errors with that topic. -/
theorem newErrorSummary_keys_and_counts (q : errChan) (h : q.length < 2 ^ 63) :
    (newErrorSummary q).1.keys = topicsOf q ∧
    ∀ t ∈ topicsOf q, ∃ s, (newErrorSummary q).1.lookup t = some s ∧
      s.count = (topicCount q t : Int) := by
  simp only [newErrorSummary, newErrorSummary.loop_eq]
  refine ⟨keys_foldl_receive q, ?_⟩
  intro t ht
  rw [lookup_foldl_receive, wrappedCount_eq_topicCount q t h]
  rw [← firstOfTopic_isSome] at ht
  cases hf : firstOfTopic q t with
  | none => simp [hf] at ht
  | some e => exact ⟨_, rfl, rfl⟩

/-- Witness of C1 on the queue of `TestErrorSummary`: 4 encoding, 3
trace-buffer and 1 transport error give exactly 3 entries, with counts 4, 3
and 1. -/
theorem newErrorSummary_keys_and_counts_witness :
    (testQueue.length < 2 ^ 63 ∧
      ((newErrorSummary testQueue).1.keys = topicsOf testQueue ∧
        ∀ t ∈ topicsOf testQueue, ∃ s, (newErrorSummary testQueue).1.lookup t = some s ∧
          s.count = (topicCount testQueue t : Int))) ∧
    (newErrorSummary testQueue).1.keys = {topicEncoding, topicTraceBuffer, topicTransport} ∧
    Multiset.card (newErrorSummary testQueue).1.entries = 3 ∧
    ((newErrorSummary testQueue).1.lookup topicEncoding).map errorSummary.count = some 4 ∧
    ((newErrorSummary testQueue).1.lookup topicTraceBuffer).map errorSummary.count = some 3 ∧
    ((newErrorSummary testQueue).1.lookup topicTransport).map errorSummary.count = some 1 :=
  ⟨⟨by decide, newErrorSummary_keys_and_counts testQueue (by decide)⟩,
    by decide, by decide, by decide, by decide, by decide⟩

/-- C2: for every queue `q` and every topic `t` occurring in it, `q` splits
at the earliest error `e` of topic `t` (no error before `e` has topic `t`),
and the example stored for `t` is exactly `e.Error()`, whatever errors of the
same topic follow `e`. -/
theorem newErrorSummary_example_is_earliest (q : errChan) (t : errorTopic)
    (ht : t ∈ topicsOf q) :
    ∃ pre e post, q = pre ++ e :: post ∧ e.topic = t ∧ (∀ x ∈ pre, x.topic ≠ t) ∧
      ∃ s, (newErrorSummary q).1.lookup t = some s ∧ s.example_ = e.Error := by
  simp only [newErrorSummary, newErrorSummary.loop_eq]
  rw [lookup_foldl_receive]
  rw [← firstOfTopic_isSome] at ht
  cases hf : firstOfTopic q t with
  | none => simp [hf] at ht
  | some e =>
    obtain ⟨hp, pre, post, hq, hpre⟩ := List.find?_eq_some.mp hf
    refine ⟨pre, e, post, hq, by simpa using hp, ?_, _, rfl, rfl⟩
    intro x hx
    simpa using hpre x hx

/-- Witness of C2: the trace-buffer topic in the queue of `TestErrorSummary`,
whose example is the message of `traceBufferError(1)`. -/
theorem newErrorSummary_example_is_earliest_witness :
    (topicTraceBuffer ∈ topicsOf testQueue ∧
      ∃ pre e post, testQueue = pre ++ e :: post ∧ e.topic = topicTraceBuffer ∧
        (∀ x ∈ pre, x.topic ≠ topicTraceBuffer) ∧
        ∃ s, (newErrorSummary testQueue).1.lookup topicTraceBuffer = some s ∧
          s.example_ = e.Error) ∧
    ((newErrorSummary testQueue).1.lookup topicTraceBuffer).map errorSummary.example_
      = some "trace buffer full (traces lost: 1)" ∧
    ((newErrorSummary testQueue).1.lookup topicEncoding).map errorSummary.example_
      = some "encoding error (encoding error message 1)" ∧
    ((newErrorSummary testQueue).1.lookup topicTransport).map errorSummary.example_
      = some "transport error (transport error msg; traces lost: 10)" :=
  ⟨⟨by decide, newErrorSummary_example_is_earliest testQueue topicTraceBuffer (by decide)⟩,
    by decide, by decide, by decide⟩

/-- C3: `newErrorSummary` is total (the loop is a structural recursion on the
queue); it returns at once on an empty queue, and on a queue `q` it folds the
receive branch over the errors of `q`, each taken once and in queue order; it
leaves the queue empty, so a second drain right after returns the empty map. -/
theorem newErrorSummary_single_pass (q : errChan) :
    (∀ errs, newErrorSummary.loop errs [] = (errs, [])) ∧
    (∀ errs e ch, newErrorSummary.loop errs (e :: ch)
        = newErrorSummary.loop (newErrorSummary.receive errs e) ch) ∧
    (newErrorSummary q).1 = q.foldl newErrorSummary.receive ∅ ∧
    (newErrorSummary q).2 = [] ∧
    newErrorSummary (newErrorSummary q).2 = (∅, []) := by
  refine ⟨fun _ => rfl, fun _ _ _ => rfl, ?_, ?_, ?_⟩ <;>
    simp [newErrorSummary, newErrorSummary.loop_eq]

/-- C4: `logErrors` emits, as a multiset, exactly one line per distinct topic
of the queue, namely the line of that topic's summary; so the number of lines
is the number of distinct topics, however many errors are queued for a topic;
for an empty queue it emits no line. -/
theorem logErrors_one_line_per_topic (q : errChan) :
    (logErrors q).1
      = (topicsOf q).val.map
          (fun t => logErrors.line (summaryMap.index (newErrorSummary q).1 t)) ∧
    Multiset.card (logErrors q).1 = (topicsOf q).card ∧
    (logErrors []).1 = 0 := by
  have h1 : (logErrors q).1
      = (topicsOf q).val.map
          (fun t => logErrors.line (summaryMap.index (newErrorSummary q).1 t)) := by
    simp only [logErrors, newErrorSummary, newErrorSummary.loop_eq]
    rw [entries_eq_keys_map, keys_foldl_receive, Multiset.map_map]
    rfl
  refine ⟨h1, ?_, ?_⟩
  · rw [h1, Multiset.card_map]
    rfl
  · rfl

/-- C5: the lines of `logErrors` are the lines of the entries of the drained
summary, and the line of an entry is the error prefix followed by the example,
followed by the suffix ` (repeated N times)`, with `N` the decimal count, when
the count is greater than 1, and by nothing otherwise (in particular when the
count is 1). -/
theorem logErrors_line_format (q : errChan) :
    (logErrors q).1 = (newErrorSummary q).1.entries.map (fun e => logErrors.line e.2) ∧
    ∀ v : errorSummary,
      (1 < v.count → logErrors.line v
        = "Datadog Tracer Error: " ++ v.example_ ++ " (repeated " ++ Itoa v.count ++ " times)") ∧
      (¬ 1 < v.count → logErrors.line v = "Datadog Tracer Error: " ++ v.example_) ∧
      (v.count = 1 → logErrors.line v = "Datadog Tracer Error: " ++ v.example_) := by
  refine ⟨rfl, fun v => ⟨?_, ?_, ?_⟩⟩
  · intro h
    simp [logErrors.line, errorPrefix, h, String.append_assoc]
  · intro h
    simp [logErrors.line, errorPrefix, h]
  · intro h
    simp [logErrors.line, errorPrefix, h]

/-- C6: for every error `e` (a value with an `Error()` method) and every
integer `n`, `transportError(e, n)` has the transport topic and renders as
`transport error (<e.Error()>; traces lost: <n>)`; so does the call of
`TestErrorSummary`. -/
theorem transportError_render (e : errorValue) (n : Int) :
    (transportError (some e) n).topic = topicTransport ∧
    (transportError (some e) n).Error
      = "transport error (" ++ e.Error ++ "; traces lost: " ++ Itoa n ++ ")" ∧
    (transportError (errorsNew "transport error msg") 10).Error
      = "transport error (transport error msg; traces lost: 10)" := by
  refine ⟨rfl, ?_, by decide⟩
  have h : errorTopic.String topicTransport = "transport error" := by decide
  simp [transportError, tracerError.Error, fmtErrorS, fmtErrorf, h, String.append_assoc]

/-- C7: for every integer `n`, `spanBufferError(n)` has the span-buffer topic
and renders as `span buffer full (size: <n>)`, and `traceBufferError(n)` has
the trace-buffer topic and renders as `trace buffer full (traces lost: <n>)`,
where `<n>` is the decimal text of `n`, which reads back as `n` itself; so
`traceBufferError(1)` renders as `trace buffer full (traces lost: 1)`. -/
theorem bufferErrors_render (n : Int) :
    (spanBufferError n).topic = topicSpanBuffer ∧
    (spanBufferError n).Error = "span buffer full (size: " ++ Itoa n ++ ")" ∧
    (traceBufferError n).topic = topicTraceBuffer ∧
    (traceBufferError n).Error = "trace buffer full (traces lost: " ++ Itoa n ++ ")" ∧
    readDecimal (Itoa n) = n ∧
    (traceBufferError 1).Error = "trace buffer full (traces lost: 1)" := by
  have h1 : errorTopic.String topicSpanBuffer = "span buffer full" := by decide
  have h2 : errorTopic.String topicTraceBuffer = "trace buffer full" := by decide
  refine ⟨rfl, ?_, rfl, ?_, readDecimal_Itoa n, by decide⟩
  · have h3 : "span buffer full" ++ " (" ++ "size: " = "span buffer full (size: " := by decide
    simp only [spanBufferError, tracerError.Error, fmtErrorS, fmtErrorf, h1]
    simp only [← String.append_assoc, h3]
  · have h3 : "trace buffer full" ++ " (" ++ "traces lost: "
        = "trace buffer full (traces lost: " := by
      decide
    simp only [traceBufferError, tracerError.Error, fmtErrorS, fmtErrorf, h2]
    simp only [← String.append_assoc, h3]

/-- C8: a `tracerError` with topic `t` and non-nil underlying error `e` renders
as `<t.String()> (<e.Error()>)`; `encodingError(e)` has the encoding topic,
keeps `e` as its underlying error and renders as `encoding error (<e.Error()>)`;
so does the first call of `TestErrorSummary`. -/
theorem tracerError_render (t : errorTopic) (e : errorValue) :
    ({ topic := t, err := some e } : tracerError).Error
      = errorTopic.String t ++ " (" ++ e.Error ++ ")" ∧
    (encodingError (some e)).topic = topicEncoding ∧
    (encodingError (some e)).err = some e ∧
    (encodingError (some e)).Error = "encoding error (" ++ e.Error ++ ")" ∧
    (encodingError (errorsNew "encoding error message 1")).Error
      = "encoding error (encoding error message 1)" := by
  have h1 : errorTopic.String topicEncoding = "encoding error" := by decide
  refine ⟨rfl, rfl, rfl, ?_, by decide⟩
  simp [encodingError, tracerError.Error, fmtErrorS, h1, String.append_assoc]

/-! ## The contract of the payload encoder -/

theorem msgpackDecodeArrayHeader_arrayHeader (n : Nat) (h : n < 2 ^ 32) (rest : List Nat) :
    msgpackDecodeArrayHeader (arrayHeader n ++ rest) = some (n, rest) := by
  unfold arrayHeader
  split_ifs with h1 h2
  · have h3 : 144 ≤ 144 + n ∧ 144 + n ≤ 159 := by omega
    simp [msgpackDecodeArrayHeader, h3]
  · simp [msgpackDecodeArrayHeader]
    omega
  · simp [msgpackDecodeArrayHeader]
    omega

/-- No stream of bytes whose array header announces `n` items is shorter than
the header `arrayHeader n` followed by what comes after the header. -/
theorem arrayHeader_minimal (bs rest : List Nat) (n : Nat) (hb : ∀ b ∈ bs, b < 256)
    (h : msgpackDecodeArrayHeader bs = some (n, rest)) :
    (arrayHeader n).length + rest.length ≤ bs.length := by
  have hlen : ∀ m, (arrayHeader m).length ≤ 5 := by
    intro m
    unfold arrayHeader
    split_ifs <;> simp
  cases bs with
  | nil => simp [msgpackDecodeArrayHeader] at h
  | cons b r =>
    simp only [msgpackDecodeArrayHeader] at h
    split_ifs at h with h1 h2 h3
    · simp only [Option.some.injEq, Prod.mk.injEq] at h
      obtain ⟨hn, hr⟩ := h
      subst hr
      have h4 : n ≤ 15 := by omega
      simp only [arrayHeader, h4, if_true, List.length_cons, List.length_nil]
      omega
    · match r, h, hb with
      | b1 :: b0 :: r2, h, hb =>
        simp only [Option.some.injEq, Prod.mk.injEq] at h
        obtain ⟨hn, hr⟩ := h
        subst hr
        have hb1 := hb b1 (by simp)
        have hb0 := hb b0 (by simp)
        have h4 : n ≤ 65535 := by omega
        unfold arrayHeader
        split_ifs <;> simp only [List.length_cons, List.length_nil] <;> omega
      | [], h, _ => simp at h
      | [_], h, _ => simp at h
    · match r, h with
      | b3 :: b2 :: b1 :: b0 :: r2, h =>
        simp only [Option.some.injEq, Prod.mk.injEq] at h
        obtain ⟨hn, hr⟩ := h
        subst hr
        have := hlen n
        simp only [List.length_cons]
        omega
      | [], h => simp at h
      | [_], h => simp at h
      | [_, _], h => simp at h
      | [_, _, _], h => simp at h

theorem msgpackDecodeUint_encode (n : Nat) (h : n < 2 ^ 64) (rest : List Nat) :
    msgpackDecodeUint (msgpackEncodeUint n ++ rest) = some (n, rest) := by
  unfold msgpackEncodeUint
  split_ifs with h1 h2 h3 h4
  · have h5 : n < 128 := by simpa using h1
    simp [msgpackDecodeUint, h5]
  · simp [msgpackDecodeUint]
  · simp [msgpackDecodeUint]
    omega
  · simp [msgpackDecodeUint]
    omega
  · simp [msgpackDecodeUint]
    omega

theorem msgpackDecodeItems_encode {α : Type} (enc : α → List Nat)
    (dec : List Nat → Option (α × List Nat)) (items : List α)
    (hrt : ∀ x ∈ items, ∀ rest, dec (enc x ++ rest) = some (x, rest)) (rest : List Nat) :
    msgpackDecodeItems dec items.length ((items.map enc).flatten ++ rest)
      = some (items, rest) := by
  induction items with
  | nil => rfl
  | cons x xs ih =>
    have h1 := hrt x (List.mem_cons_self x xs)
    have h2 := ih (fun y hy => hrt y (List.mem_cons_of_mem x hy))
    simp only [List.map_cons, List.flatten_cons, List.length_cons, List.append_assoc,
      msgpackDecodeItems, h1, h2]

theorem payload.foldl_push {α : Type} (enc : α → List Nat) (p : payload) (items : List α) :
    items.foldl (payload.push enc) p
      = { count := p.count + items.length, body := p.body ++ (items.map enc).flatten } := by
  induction items generalizing p with
  | nil => simp
  | cons x xs ih =>
    simp only [List.foldl_cons, ih, payload.push, List.length_cons, List.map_cons,
      List.flatten_cons, List.append_assoc, payload.mk.injEq, and_true]
    omega

theorem payload.run_itemCount {α : Type} (enc : α → List Nat) (ops : List (payloadOp α)) :
    (payload.run enc newPayload ops).itemCount
      = (ops.reverse.takeWhile payloadOp.isPush).length := by
  induction ops using List.reverseRecOn with
  | nil => rfl
  | append_singleton ops op ih =>
    cases op with
    | push item =>
      simp only [payload.run, List.foldl_append, List.foldl_cons, List.foldl_nil,
        payload.apply, List.reverse_append, List.reverse_singleton, List.singleton_append,
        List.takeWhile_cons, payloadOp.isPush, if_true, List.length_cons] at ih ⊢
      rw [← ih]
      rfl
    | reset =>
      simp [payload.run, List.foldl_append, payload.apply, payload.reset,
        payload.itemCount, payloadOp.isPush]

/-- C9: after `reset()` and a push of each item of `items` in order (fewer
than `2 ^ 32` items, the most an array header can announce), what is read from
the payload is the msgpack encoding of the array `items`: the array header for
the count, of 1 byte up to 15 items, 3 bytes up to 65535 and 5 bytes above
(no stream announcing that count is shorter), then the encodings of the items
in push order; and the msgpack decoder, with
any item decoder that inverts the item encoder on these items, yields exactly
`items` and consumes the whole stream. -/
theorem payload_read_roundtrip {α : Type} (enc : α → List Nat)
    (dec : List Nat → Option (α × List Nat)) (p : payload) (items : List α)
    (hlen : items.length < 2 ^ 32)
    (hrt : ∀ x ∈ items, ∀ rest, dec (enc x ++ rest) = some (x, rest)) :
    (items.foldl (payload.push enc) p.reset).read = msgpackEncodeArray enc items ∧
    (items.foldl (payload.push enc) p.reset).read
      = arrayHeader items.length ++ (items.map enc).flatten ∧
    (arrayHeader items.length).length
      = (if items.length ≤ 15 then 1 else if items.length ≤ 65535 then 3 else 5) ∧
    (∀ bs rest, (∀ b ∈ bs, b < 256) →
      msgpackDecodeArrayHeader bs = some (items.length, rest) →
      (arrayHeader items.length).length + rest.length ≤ bs.length) ∧
    msgpackDecodeArray dec (items.foldl (payload.push enc) p.reset).read = some (items, []) := by
  have h1 : (items.foldl (payload.push enc) p.reset).read
      = arrayHeader items.length ++ (items.map enc).flatten := by
    simp [payload.foldl_push, payload.read, payload.reset]
  refine ⟨h1, h1, ?_, fun bs rest hb h => arrayHeader_minimal bs rest _ hb h, ?_⟩
  · unfold arrayHeader
    split_ifs <;> rfl
  · rw [h1]
    unfold msgpackDecodeArray
    rw [msgpackDecodeArrayHeader_arrayHeader _ hlen]
    have h2 := msgpackDecodeItems_encode enc dec items hrt []
    simpa using h2

/-- Witness of C9: the three cycles of `TestPayloadIntegrity` and
`TestPayloadDecodeInts`, the ints 1 to 3, 1 to 10 and 1 to 17 pushed in turn
into the same payload, each after a `reset()`. -/
theorem payload_read_roundtrip_witness :
    ((intsUpTo 17).length < 2 ^ 32 ∧
      (∀ x ∈ intsUpTo 17, ∀ rest,
        msgpackDecodeUint (msgpackEncodeUint x ++ rest) = some (x, rest)) ∧
      msgpackDecodeArray msgpackDecodeUint
        ((intsUpTo 17).foldl (payload.push msgpackEncodeUint)
          ((intsUpTo 10).foldl (payload.push msgpackEncodeUint) newPayload).reset).read
        = some (intsUpTo 17, [])) ∧
    ((intsUpTo 3).foldl (payload.push msgpackEncodeUint) newPayload.reset).read
      = [0x93, 1, 2, 3] ∧
    ((intsUpTo 10).foldl (payload.push msgpackEncodeUint)
        ((intsUpTo 3).foldl (payload.push msgpackEncodeUint) newPayload).reset).read
      = [0x9a, 1, 2, 3, 4, 5, 6, 7, 8, 9, 10] ∧
    ((intsUpTo 17).foldl (payload.push msgpackEncodeUint)
        ((intsUpTo 10).foldl (payload.push msgpackEncodeUint) newPayload).reset).read
      = [0xdc, 0, 17, 1, 2, 3, 4, 5, 6, 7, 8, 9, 10, 11, 12, 13, 14, 15, 16, 17] ∧
    msgpackDecodeArray msgpackDecodeUint [0x93, 1, 2, 3] = some (intsUpTo 3, []) ∧
    msgpackDecodeArray msgpackDecodeUint [0x9a, 1, 2, 3, 4, 5, 6, 7, 8, 9, 10]
      = some (intsUpTo 10, []) :=
  ⟨⟨by decide,
      fun x hx rest => msgpackDecodeUint_encode x
        (by simp only [intsUpTo, List.mem_map, List.mem_range] at hx; omega) rest,
      (payload_read_roundtrip msgpackEncodeUint msgpackDecodeUint
        ((intsUpTo 10).foldl (payload.push msgpackEncodeUint) newPayload) (intsUpTo 17)
        (by decide)
        (fun x hx rest => msgpackDecodeUint_encode x
          (by simp only [intsUpTo, List.mem_map, List.mem_range] at hx; omega) rest)).2.2.2.2⟩,
    by decide, by decide, by decide, by decide, by decide⟩

/-- C10: after any sequence `pre` of operations on a new payload the item
count is the number of pushes at the end of `pre`, back to the last `reset()`
if there is one; whatever operations came before, after a `reset()` followed
by a push of each item of `items` the item count is the number of these pushes,
and so it is on a new payload after pushes alone; right after a `reset()` the
item count is 0 and the payload reads as the one byte `0x90`, which decodes as
the empty array. -/
theorem payload_itemCount_since_reset {α : Type} (enc : α → List Nat)
    (dec : List Nat → Option (α × List Nat)) (p : payload)
    (pre : List (payloadOp α)) (items : List α) :
    (payload.run enc newPayload pre).itemCount
      = (pre.reverse.takeWhile payloadOp.isPush).length ∧
    (payload.run enc p (pre ++ payloadOp.reset :: items.map payloadOp.push)).itemCount
      = items.length ∧
    (payload.run enc newPayload (items.map payloadOp.push)).itemCount = items.length ∧
    (payload.run enc p (pre ++ [payloadOp.reset])).itemCount = 0 ∧
    (payload.run enc p (pre ++ [payloadOp.reset])).read = [0x90] ∧
    (payload.run enc p (pre ++ [payloadOp.reset])).read = msgpackEncodeArray enc [] ∧
    msgpackDecodeArray dec (payload.run enc p (pre ++ [payloadOp.reset])).read
      = some ([], []) := by
  have hpush : ∀ (r : payload) (xs : List α),
      payload.run enc r (xs.map payloadOp.push) = xs.foldl (payload.push enc) r := by
    intro r xs
    induction xs generalizing r with
    | nil => rfl
    | cons x xs ih => simpa [payload.run, payload.apply] using ih (r.push enc x)
  have hreset : payload.run enc p (pre ++ [payloadOp.reset]) = newPayload := by
    simp [payload.run, List.foldl_append, payload.apply, payload.reset, newPayload]
  have hsplit : payload.run enc p (pre ++ payloadOp.reset :: items.map payloadOp.push)
      = payload.run enc newPayload (items.map payloadOp.push) := by
    have h := hreset
    simp only [payload.run, List.foldl_append, List.foldl_cons, List.foldl_nil] at h ⊢
    rw [h]
  refine ⟨?_, ?_, ?_, ?_, ?_, ?_, ?_⟩
  · exact payload.run_itemCount enc pre
  · rw [hsplit, hpush, payload.foldl_push]
    simp [payload.itemCount, newPayload]
  · rw [hpush, payload.foldl_push]
    simp [payload.itemCount, newPayload]
  · rw [hreset]; rfl
  · rw [hreset]; rfl
  · rw [hreset]; rfl
  · rw [hreset]; rfl

/-! ## Further properties of the error reporter -/

theorem index_foldl_receive (q : errChan) (t : errorTopic) (e : tracerError)
    (h : firstOfTopic q t = some e) :
    summaryMap.index (q.foldl newErrorSummary.receive ∅) t
      = { count := wrappedCount q t, example_ := e.Error } := by
  simp [summaryMap.index, lookup_foldl_receive, h]

theorem wrappedCount_eq_iterate (q : errChan) (t : errorTopic) :
    wrappedCount q t = (fun c => wrapInt (c + 1))^[topicCount q t] 0 := by
  induction q using List.reverseRecOn with
  | nil => rfl
  | append_singleton q e ih =>
    rw [wrappedCount_append, ih]
    unfold topicCount
    rw [List.countP_append]
    by_cases h : e.topic = t
    · simp only [if_pos h, List.countP_singleton, h, decide_True, if_true]
      rw [Function.iterate_succ_apply']
    · simp [h]

theorem firstOfTopic_eq_head_filter (q : errChan) (t : errorTopic) :
    firstOfTopic q t = (q.filter (fun e => decide (e.topic = t))).head? := by
  unfold firstOfTopic
  induction q with
  | nil => rfl
  | cons e q ih =>
    by_cases h : e.topic = t
    · simp [List.find?_cons, List.filter_cons, h]
    · simp [List.find?_cons, List.filter_cons, h]

theorem topicCount_eq_count (q : errChan) (t : errorTopic) :
    topicCount q t = (q.map tracerError.topic).count t := by
  unfold topicCount
  rw [List.count_eq_countP, List.countP_map]
  congr 1

/-- C16: `errorTopic.String` is total; it gives the four labels on the four
named topics, and `unknown error` on `topicUnknown` and on every other integer
value, below `topicEncoding` (so on the negative ones) or above
`topicTransport`. -/
theorem errorTopic_String_total (t : errorTopic)
    (h : t < topicEncoding ∨ topicTransport < t) :
    errorTopic.String t = "unknown error" ∧
    errorTopic.String topicUnknown = "unknown error" ∧
    errorTopic.String topicEncoding = "encoding error" ∧
    errorTopic.String topicSpanBuffer = "span buffer full" ∧
    errorTopic.String topicTraceBuffer = "trace buffer full" ∧
    errorTopic.String topicTransport = "transport error" := by
  refine ⟨?_, by decide, by decide, by decide, by decide, by decide⟩
  have h0 : @LT.lt Int _ t 1 ∨ @LT.lt Int _ 4 t := h
  have h1 : @Ne Int t 1 ∧ @Ne Int t 2 ∧ @Ne Int t 3 ∧ @Ne Int t 4 := by omega
  simp [errorTopic.String, topicEncoding, topicSpanBuffer, topicTraceBuffer, topicTransport, h1]

/-- Witness of C16: a negative value and a value above `topicTransport`. -/
theorem errorTopic_String_total_witness :
    ((-1 : errorTopic) < topicEncoding ∨ topicTransport < (-1 : errorTopic)) ∧
    errorTopic.String (-1) = "unknown error" ∧
    errorTopic.String 5 = "unknown error" :=
  ⟨by decide, (errorTopic_String_total (-1) (by decide)).1,
    (errorTopic_String_total 5 (by decide)).1⟩

/-- C17: the counts of the map returned by `newErrorSummary` sum to the length
of the queue (a Go channel holds fewer than `2 ^ 63` values). -/
theorem newErrorSummary_counts_sum (q : errChan) (h : q.length < 2 ^ 63) :
    ((newErrorSummary q).1.entries.map (fun e => e.2.count)).sum = (q.length : Int) := by
  simp only [newErrorSummary, newErrorSummary.loop_eq]
  rw [entries_eq_keys_map, keys_foldl_receive, Multiset.map_map]
  have h1 : ∀ t ∈ (topicsOf q).val,
      ((fun e : Sigma (fun _ : errorTopic => errorSummary) => e.2.count) ∘
        (fun t => (⟨t, summaryMap.index (q.foldl newErrorSummary.receive ∅) t⟩ : Sigma _))) t
        = (((q.map tracerError.topic).count t : Nat) : Int) := by
    intro t ht
    have ht2 : t ∈ topicsOf q := ht
    rw [← firstOfTopic_isSome] at ht2
    cases hf : firstOfTopic q t with
    | none => simp [hf] at ht2
    | some e =>
      simp only [Function.comp, index_foldl_receive q t e hf,
        wrappedCount_eq_topicCount q t h, topicCount_eq_count]
  rw [Multiset.map_congr rfl h1]
  have h2 := List.sum_toFinset_count_eq_length (q.map tracerError.topic)
  have h3 : (((topicsOf q).val.map
      (fun t => (((q.map tracerError.topic).count t : Nat) : Int))).sum)
      = ((∑ t in (q.map tracerError.topic).toFinset, (q.map tracerError.topic).count t : Nat)
          : Int) := by
    rw [Nat.cast_sum]
    rfl
  rw [h3, h2, List.length_map]

/-- Witness of C17: the 8 errors of `TestErrorSummary`, counted 4 + 3 + 1. -/
theorem newErrorSummary_counts_sum_witness :
    testQueue.length < 2 ^ 63 ∧
    ((newErrorSummary testQueue).1.entries.map (fun e => e.2.count)).sum = 8 :=
  ⟨by decide, newErrorSummary_counts_sum testQueue (by decide)⟩

/-- C18: every entry of the map returned by `newErrorSummary` (for a queue of
fewer than `2 ^ 63` errors, as a Go channel holds) has a count of at least 1
and a non-empty example; `Error()` of a `tracerError` is the topic label, then
` (`, the detail and `)`, hence never the empty string; and an error received
for a topic that already has an entry leaves the example as it is. -/
theorem newErrorSummary_entries_nonempty (q : errChan) (h : q.length < 2 ^ 63)
    (t : errorTopic) (s : errorSummary) (hs : (newErrorSummary q).1.lookup t = some s) :
    1 ≤ s.count ∧ s.example_ ≠ "" ∧
    (∀ te : tracerError,
      te.Error = errorTopic.String te.topic ++ " (" ++ fmtErrorS te.err ++ ")" ∧
      te.Error ≠ "") ∧
    (∀ e : tracerError, e.topic = t →
      (summaryMap.index (newErrorSummary (q ++ [e])).1 t).example_ = s.example_) := by
  simp only [newErrorSummary, newErrorSummary.loop_eq] at hs ⊢
  rw [lookup_foldl_receive] at hs
  cases hf : firstOfTopic q t with
  | none => simp [hf] at hs
  | some e0 =>
    rw [hf] at hs
    simp only [Option.map_some', Option.some.injEq] at hs
    subst hs
    refine ⟨?_, tracerError.Error_ne_empty e0, fun te => ⟨rfl, tracerError.Error_ne_empty te⟩, ?_⟩
    · simp only [wrappedCount_eq_topicCount q t h]
      have h1 : 0 < topicCount q t := by
        unfold topicCount
        rw [List.countP_pos_iff]
        have h2 := List.find?_some hf
        have h3 := List.mem_of_find?_eq_some hf
        exact ⟨e0, h3, h2⟩
      omega
    · intro e he
      have h4 : firstOfTopic (q ++ [e]) t = some e0 := by
        rw [firstOfTopic_append, hf]
        rfl
      rw [index_foldl_receive _ t e0 h4]

/-- Witness of C18: the encoding entry of the queue of `TestErrorSummary`. -/
theorem newErrorSummary_entries_nonempty_witness :
    testQueue.length < 2 ^ 63 ∧
    (newErrorSummary testQueue).1.lookup topicEncoding
      = some { count := 4, example_ := "encoding error (encoding error message 1)" } ∧
    (1 : Int) ≤ 4 ∧ "encoding error (encoding error message 1)" ≠ "" :=
  ⟨by decide, by decide,
    (newErrorSummary_entries_nonempty testQueue (by decide) topicEncoding
      { count := 4, example_ := "encoding error (encoding error message 1)" } (by decide)).1,
    (newErrorSummary_entries_nonempty testQueue (by decide) topicEncoding
      { count := 4, example_ := "encoding error (encoding error message 1)" } (by decide)).2.1⟩

/-- C19: for two queues that are permutations of each other, the count of every
topic is the same in the two returned maps; and when moreover the errors of
each topic come in the same order in both (the permutation keeps the relative
order of the errors sharing a topic), the two returned maps are equal. -/
theorem newErrorSummary_order_independent (q1 q2 : errChan) (hp : q1.Perm q2) :
    (∀ t, (summaryMap.index (newErrorSummary q1).1 t).count
      = (summaryMap.index (newErrorSummary q2).1 t).count) ∧
    ((∀ t, q1.filter (fun e => decide (e.topic = t)) = q2.filter (fun e => decide (e.topic = t)))
      → (newErrorSummary q1).1 = (newErrorSummary q2).1) := by
  simp only [newErrorSummary, newErrorSummary.loop_eq]
  constructor
  · intro t
    have h1 : topicCount q1 t = topicCount q2 t := hp.countP_eq _
    have h2 : (firstOfTopic q1 t).isSome = (firstOfTopic q2 t).isSome := by
      rw [Bool.eq_iff_iff, firstOfTopic_isSome, firstOfTopic_isSome, mem_topicsOf, mem_topicsOf]
      constructor
      · rintro ⟨e, he, het⟩
        exact ⟨e, hp.mem_iff.mp he, het⟩
      · rintro ⟨e, he, het⟩
        exact ⟨e, hp.mem_iff.mpr he, het⟩
    simp only [summaryMap.index, lookup_foldl_receive, wrappedCount_eq_iterate, h1]
    cases hf1 : firstOfTopic q1 t <;> cases hf2 : firstOfTopic q2 t <;>
      simp [hf1, hf2] at h2 ⊢
  · intro h
    apply Finmap.ext_lookup
    intro t
    have h1 : topicCount q1 t = topicCount q2 t := hp.countP_eq _
    rw [lookup_foldl_receive, lookup_foldl_receive, wrappedCount_eq_iterate,
      wrappedCount_eq_iterate, firstOfTopic_eq_head_filter, firstOfTopic_eq_head_filter, h t, h1]

/-- Witness of C19: moving the trace-buffer error before the two encoding
errors keeps the map; swapping the two encoding errors keeps the counts but
not the example. -/
theorem newErrorSummary_order_independent_witness :
    ([encodingError (errorsNew "m1"), encodingError (errorsNew "m2"), traceBufferError 1].Perm
        [traceBufferError 1, encodingError (errorsNew "m1"), encodingError (errorsNew "m2")]) ∧
    (newErrorSummary
        [encodingError (errorsNew "m1"), encodingError (errorsNew "m2"), traceBufferError 1]).1
      = (newErrorSummary
        [traceBufferError 1, encodingError (errorsNew "m1"), encodingError (errorsNew "m2")]).1 ∧
    (newErrorSummary
        [encodingError (errorsNew "m1"), encodingError (errorsNew "m2"), traceBufferError 1]).1
      ≠ (newErrorSummary
        [encodingError (errorsNew "m2"), encodingError (errorsNew "m1"), traceBufferError 1]).1 :=
  ⟨by decide,
    (newErrorSummary_order_independent
      [encodingError (errorsNew "m1"), encodingError (errorsNew "m2"), traceBufferError 1]
      [traceBufferError 1, encodingError (errorsNew "m1"), encodingError (errorsNew "m2")]
      (by decide)).2 (by
        intro t
        by_cases h1 : t = topicEncoding
        · subst h1; decide
        · by_cases h3 : t = topicTraceBuffer
          · subst h3; decide
          · have h1a : ¬ (topicEncoding = t) := fun h => h1 h.symm
            have h3a : ¬ (topicTraceBuffer = t) := fun h => h3 h.symm
            simp [List.filter, encodingError, traceBufferError, h1a, h3a]),
    by decide⟩

theorem label_prefix_of_example_eq (a b x y : String) (h : a ++ x = b ++ y) :
    a.data <+: b.data ∨ b.data <+: a.data := by
  have h1 : a.data <+: (a ++ x).data := by
    rw [String.data_append]
    exact List.prefix_append _ _
  have h2 : b.data <+: (a ++ x).data := by
    rw [h, String.data_append]
    exact List.prefix_append _ _
  exact List.prefix_or_prefix_of_prefix h1 h2

theorem labels_not_prefix :
    ∀ a ∈ definedTopics, ∀ b ∈ definedTopics, a ≠ b →
      ¬ (errorTopic.String a).data <+: (errorTopic.String b).data := by
  decide

/-- C20: in a map returned by `newErrorSummary` the example of topic `t`
begins with the label of `t` followed by ` (`; the labels of the five defined
topics are pairwise not prefixes of one another (so pairwise distinct); hence
the entries of two different defined topics have different examples, and
different log lines. -/
theorem newErrorSummary_example_identifies_topic (q : errChan) (t : errorTopic)
    (s : errorSummary) (hs : (newErrorSummary q).1.lookup t = some s) :
    (∃ rest, s.example_ = errorTopic.String t ++ " (" ++ rest) ∧
    (∀ a ∈ definedTopics, ∀ b ∈ definedTopics, a ≠ b →
      ¬ (errorTopic.String a).data <+: (errorTopic.String b).data) ∧
    (∀ t2 s2, (newErrorSummary q).1.lookup t2 = some s2 →
      t ∈ definedTopics → t2 ∈ definedTopics → t ≠ t2 →
      s.example_ ≠ s2.example_ ∧ logErrors.line s ≠ logErrors.line s2) := by
  have key : ∀ (u : errorTopic) (r : errorSummary),
      (newErrorSummary q).1.lookup u = some r →
      ∃ rest, r.example_ = errorTopic.String u ++ rest := by
    intro u r hr
    simp only [newErrorSummary, newErrorSummary.loop_eq] at hr
    rw [lookup_foldl_receive] at hr
    cases hf : firstOfTopic q u with
    | none => simp [hf] at hr
    | some e0 =>
      rw [hf] at hr
      simp only [Option.map_some', Option.some.injEq] at hr
      subst hr
      have h2 : e0.topic = u := by simpa using List.find?_some hf
      refine ⟨" (" ++ fmtErrorS e0.err ++ ")", ?_⟩
      simp [tracerError.Error, h2, String.append_assoc]
  refine ⟨?_, labels_not_prefix, ?_⟩
  · obtain ⟨rest, hrest⟩ : ∃ rest, s.example_ = errorTopic.String t ++ " (" ++ rest := by
      simp only [newErrorSummary, newErrorSummary.loop_eq] at hs
      rw [lookup_foldl_receive] at hs
      cases hf : firstOfTopic q t with
      | none => simp [hf] at hs
      | some e0 =>
        rw [hf] at hs
        simp only [Option.map_some', Option.some.injEq] at hs
        subst hs
        have h2 : e0.topic = t := by simpa using List.find?_some hf
        exact ⟨fmtErrorS e0.err ++ ")", by simp [tracerError.Error, h2, String.append_assoc]⟩
    exact ⟨rest, hrest⟩
  · intro t2 s2 hs2 hd hd2 hne
    obtain ⟨r1, hr1⟩ := key t s hs
    obtain ⟨r2, hr2⟩ := key t2 s2 hs2
    have hne2 : t2 ≠ t := fun h => hne h.symm
    constructor
    · intro heq
      rw [hr1, hr2] at heq
      rcases label_prefix_of_example_eq _ _ _ _ heq with h | h
      · exact labels_not_prefix t hd t2 hd2 hne h
      · exact labels_not_prefix t2 hd2 t hd hne2 h
    · intro heq
      simp only [logErrors.line, hr1, hr2, String.append_assoc] at heq
      have h3 := congrArg String.data heq
      simp only [String.data_append] at h3
      have h4 := List.append_cancel_left h3
      have h5 : (errorTopic.String t).data <+: (errorTopic.String t2).data ∨
          (errorTopic.String t2).data <+: (errorTopic.String t).data := by
        have h6 := List.prefix_append (errorTopic.String t).data
          (r1.data ++ (if s.count > 1 then " (repeated " ++ (Itoa s.count ++ " times)")
            else "").data)
        have h7 := List.prefix_append (errorTopic.String t2).data
          (r2.data ++ (if s2.count > 1 then " (repeated " ++ (Itoa s2.count ++ " times)")
            else "").data)
        rw [← h4] at h7
        exact List.prefix_or_prefix_of_prefix h6 h7
      rcases h5 with h | h
      · exact labels_not_prefix t hd t2 hd2 hne h
      · exact labels_not_prefix t2 hd2 t hd hne2 h

/-- Witness of C20: the encoding entry of the queue of `TestErrorSummary`. -/
theorem newErrorSummary_example_identifies_topic_witness :
    (newErrorSummary testQueue).1.lookup topicEncoding
      = some { count := 4, example_ := "encoding error (encoding error message 1)" } ∧
    ∃ rest, "encoding error (encoding error message 1)"
      = errorTopic.String topicEncoding ++ " (" ++ rest :=
  ⟨by decide,
    (newErrorSummary_example_identifies_topic testQueue topicEncoding
      { count := 4, example_ := "encoding error (encoding error message 1)" } (by decide)).1⟩

end tracer

namespace mocktracer

/-! ## Lemmas on the carrier keys -/

theorem traceHeader_ne_spanHeader : traceHeader ≠ spanHeader := by decide

theorem baggageKey_ne_traceHeader (k : String) : baggagePrefix ++ k ≠ traceHeader := by
  intro h
  have h1 := congrArg String.data h
  rw [String.data_append] at h1
  have h2 := congrArg (List.take 1) h1
  simp [baggagePrefix, traceHeader] at h2

theorem baggageKey_ne_spanHeader (k : String) : baggagePrefix ++ k ≠ spanHeader := by
  intro h
  have h1 := congrArg String.data h
  rw [String.data_append] at h1
  have h2 := congrArg (List.take 1) h1
  simp [baggagePrefix, spanHeader] at h2

theorem baggageKey_injective (k1 k2 : String) (h : baggagePrefix ++ k1 = baggagePrefix ++ k2) :
    k1 = k2 := by
  have h1 := congrArg String.data h
  rw [String.data_append, String.data_append] at h1
  exact String.ext (List.append_cancel_left h1)

theorem baggageKey_isPrefix (k : String) :
    baggagePrefix.data.isPrefixOf ( baggagePrefix ++ k).data = true := by
  rw [List.isPrefixOf_iff_prefix, String.data_append]
  exact List.prefix_append _ _

theorem baggageKey_strip (k : String) :
    String.mk (( baggagePrefix ++ k).data.drop baggagePrefix.data.length) = k := by
  rw [String.data_append, List.drop_left]

theorem key_of_isPrefix (key : String)
    (h : baggagePrefix.data.isPrefixOf key.data = true) :
    key = baggagePrefix ++ String.mk (key.data.drop baggagePrefix.data.length) := by
  rw [List.isPrefixOf_iff_prefix] at h
  obtain ⟨r, hr⟩ := h
  apply String.ext
  rw [String.data_append, ← hr, List.drop_left]

/-! ## Lemmas on decimal ids -/

theorem digitChar_isDigit (k : Nat) (h : k < 10) : (Nat.digitChar k).isDigit = true := by
  interval_cases k <;> decide

theorem toDigitsCore_all_isDigit (fuel n : Nat) (ds : List Char)
    (h : ds.all Char.isDigit = true) :
    (Nat.toDigitsCore 10 fuel n ds).all Char.isDigit = true := by
  induction fuel generalizing n ds with
  | zero => simpa [Nat.toDigitsCore] using h
  | succ fuel ih =>
    have hd : (Nat.digitChar (n % 10)).isDigit = true :=
      digitChar_isDigit _ (Nat.mod_lt _ (by decide))
    have h2 : (Nat.digitChar (n % 10) :: ds).all Char.isDigit = true := by
      simp only [List.all_cons, hd, h, Bool.and_self]
    unfold Nat.toDigitsCore
    by_cases h0 : n / 10 = 0
    · simpa [h0] using h2
    · simp only [h0, if_false]
      exact ih _ _ h2

/-- Parsing the decimal string form of a `uint64` gives the number back. -/
theorem ParseUint_FormatUint (n : Nat) (h : n < 2 ^ 64) : ParseUint (FormatUint n) = some n := by
  obtain ⟨k, tl, _, htl⟩ := tracer.toDigitsCore_head n n []
  have h1 : (Nat.repr n).data = Nat.toDigitsCore 10 (n + 1) n [] := rfl
  have h2 : (Nat.repr n).data ≠ [] := by
    rw [h1, htl]
    exact List.cons_ne_nil _ _
  have h3 : (Nat.repr n).data.all Char.isDigit = true := by
    rw [h1]
    exact toDigitsCore_all_isDigit _ _ _ rfl
  have h4 := tracer.readDigits_repr n
  unfold ParseUint FormatUint
  rw [if_pos ⟨h2, h3⟩, h4, if_pos h]

/-! ## Lemmas on the scan of `Extract` -/

theorem Extract.visit_trace (lower : String → String) (st : scanState) (key v : String) :
    (Extract.visit lower st key v).trace
      = if key = traceHeader then some v else st.trace := by
  unfold Extract.visit
  dsimp only
  split_ifs <;> rfl

theorem Extract.visit_span (lower : String → String) (st : scanState) (key v : String) :
    (Extract.visit lower st key v).span = if key = spanHeader then some v else st.span := by
  unfold Extract.visit
  dsimp only
  split_ifs <;> rfl

theorem Extract.visit_baggage (lower : String → String) (st : scanState) (key v : String) :
    (Extract.visit lower st key v).sc.baggage
      = if baggagePrefix.data.isPrefixOf key.data = true then
          st.sc.baggage.insert
            (lower (String.mk (key.data.drop baggagePrefix.data.length))) v
        else st.sc.baggage := by
  unfold Extract.visit
  dsimp only
  split_ifs <;> rfl

/-- The scan of a list with distinct keys identifies the value under the
trace-id key, if there is one. -/
theorem scan_trace (lower : String → String) (l : List (Sigma fun _ : String => String))
    (hnd : l.NodupKeys) (st : scanState) (hst : st.trace = none) :
    (l.foldl (fun st e => Extract.visit lower st e.1 e.2) st).trace
      = l.dlookup traceHeader := by
  induction l using List.reverseRecOn with
  | nil => simpa using hst
  | append_singleton l e ih =>
    have hnd2 : l.NodupKeys := by
      rw [List.NodupKeys, List.keys, List.map_append, List.nodup_append] at hnd
      exact hnd.1
    rw [List.foldl_append, List.dlookup_append]
    simp only [List.foldl_cons, List.foldl_nil, Extract.visit_trace, ih hnd2]
    by_cases h : e.1 = traceHeader
    · have hnot : traceHeader ∉ l.keys := by
        rw [List.NodupKeys, List.keys, List.map_append, List.nodup_append] at hnd
        intro hmem
        exact hnd.2.2 hmem (by simp [h])
      have h1 : l.dlookup traceHeader = none := by
        rw [← Option.not_isSome_iff_eq_none, List.dlookup_isSome]
        exact hnot
      cases e with
      | mk k v =>
        simp only at h
        subst h
        simp [h1, List.dlookup_cons_eq]
    · have h1 : List.dlookup traceHeader [e] = none := by
        rw [List.dlookup_cons_ne _ e (fun h2 => h h2.symm)]
        rfl
      simp [h, h1]

/-- The scan of a list with distinct keys identifies the value under the
span-id key, if there is one. -/
theorem scan_span (lower : String → String) (l : List (Sigma fun _ : String => String))
    (hnd : l.NodupKeys) (st : scanState) (hst : st.span = none) :
    (l.foldl (fun st e => Extract.visit lower st e.1 e.2) st).span
      = l.dlookup spanHeader := by
  induction l using List.reverseRecOn with
  | nil => simpa using hst
  | append_singleton l e ih =>
    have hnd2 : l.NodupKeys := by
      rw [List.NodupKeys, List.keys, List.map_append, List.nodup_append] at hnd
      exact hnd.1
    rw [List.foldl_append, List.dlookup_append]
    simp only [List.foldl_cons, List.foldl_nil, Extract.visit_span, ih hnd2]
    by_cases h : e.1 = spanHeader
    · have hnot : spanHeader ∉ l.keys := by
        rw [List.NodupKeys, List.keys, List.map_append, List.nodup_append] at hnd
        intro hmem
        exact hnd.2.2 hmem (by simp [h])
      have h1 : l.dlookup spanHeader = none := by
        rw [← Option.not_isSome_iff_eq_none, List.dlookup_isSome]
        exact hnot
      cases e with
      | mk k v =>
        simp only at h
        subst h
        simp [h1, List.dlookup_cons_eq]
    · have h1 : List.dlookup spanHeader [e] = none := by
        rw [List.dlookup_cons_ne _ e (fun h2 => h h2.symm)]
        rfl
      simp [h, h1]

/-- A scan keeps the value collected for a lower-cased baggage key when every
entry that normalizes to that key carries that value. -/
theorem scan_baggage_keep (lower : String → String)
    (l : List (Sigma fun _ : String => String)) (kk v : String)
    (hall : ∀ e ∈ l, baggagePrefix.data.isPrefixOf e.1.data = true →
      lower (String.mk (e.1.data.drop baggagePrefix.data.length)) = kk → e.2 = v)
    (st : scanState) (hst : st.sc.baggage.lookup kk = some v) :
    (l.foldl (fun st e => Extract.visit lower st e.1 e.2) st).sc.baggage.lookup kk
      = some v := by
  induction l generalizing st with
  | nil => simpa using hst
  | cons e l ih =>
    rw [List.foldl_cons]
    apply ih (fun e2 he2 => hall e2 (List.mem_cons_of_mem _ he2))
    rw [Extract.visit_baggage]
    by_cases hp : baggagePrefix.data.isPrefixOf e.1.data = true
    · rw [if_pos hp]
      by_cases hk : lower (String.mk (e.1.data.drop baggagePrefix.data.length)) = kk
      · rw [hk, AList.lookup_insert, hall e (List.mem_cons_self _ _) hp hk]
      · rw [AList.lookup_insert_ne (fun h => hk h.symm)]
        exact hst
    · rw [if_neg hp]
      exact hst

/-- A scan collects, for a lower-cased baggage key, the value of the entries
that normalize to that key, when there is one and they all carry the same
value. -/
theorem scan_baggage_found (lower : String → String)
    (l : List (Sigma fun _ : String => String)) (kk v : String)
    (hall : ∀ e ∈ l, baggagePrefix.data.isPrefixOf e.1.data = true →
      lower (String.mk (e.1.data.drop baggagePrefix.data.length)) = kk → e.2 = v)
    (hex : ∃ e ∈ l, baggagePrefix.data.isPrefixOf e.1.data = true ∧
      lower (String.mk (e.1.data.drop baggagePrefix.data.length)) = kk)
    (st : scanState) :
    (l.foldl (fun st e => Extract.visit lower st e.1 e.2) st).sc.baggage.lookup kk
      = some v := by
  induction l generalizing st with
  | nil =>
    obtain ⟨e, he, _⟩ := hex
    simp at he
  | cons e l ih =>
    rw [List.foldl_cons]
    by_cases hm : baggagePrefix.data.isPrefixOf e.1.data = true ∧
        lower (String.mk (e.1.data.drop baggagePrefix.data.length)) = kk
    · apply scan_baggage_keep lower l kk v (fun e2 he2 => hall e2 (List.mem_cons_of_mem _ he2))
      rw [Extract.visit_baggage, if_pos hm.1, hm.2, AList.lookup_insert,
        hall e (List.mem_cons_self _ _) hm.1 hm.2]
    · apply ih (fun e2 he2 => hall e2 (List.mem_cons_of_mem _ he2))
      obtain ⟨e2, he2, hp2⟩ := hex
      rcases List.mem_cons.mp he2 with h | h
      · subst h
        exact absurd hp2 hm
      · exact ⟨e2, h, hp2⟩

/-! ## Lemmas on the writes of `Inject` -/

theorem foldl_insert_lookup_of_ne (es : List (Sigma fun _ : String => String)) (m : textMap)
    (key : String) (h : ∀ e ∈ es, baggagePrefix ++ e.1 ≠ key) :
    (es.foldl (fun m e => m.insert ( baggagePrefix ++ e.1) e.2) m).lookup key
      = m.lookup key := by
  induction es generalizing m with
  | nil => rfl
  | cons e es ih =>
    rw [List.foldl_cons, ih _ (fun e2 he2 => h e2 (List.mem_cons_of_mem _ he2)),
      AList.lookup_insert_ne (fun h2 => h e (List.mem_cons_self _ _) h2.symm)]

theorem foldl_insert_lookup_mem (es : List (Sigma fun _ : String => String))
    (hnd : es.NodupKeys) (m : textMap) (k v : String) (hmem : (⟨k, v⟩ : Sigma _) ∈ es) :
    (es.foldl (fun m e => m.insert ( baggagePrefix ++ e.1) e.2) m).lookup ( baggagePrefix ++ k)
      = some v := by
  induction es generalizing m with
  | nil => simp at hmem
  | cons e es ih =>
    rw [List.foldl_cons]
    rw [List.nodupKeys_cons] at hnd
    rcases List.mem_cons.mp hmem with h | h
    · subst h
      rw [foldl_insert_lookup_of_ne, AList.lookup_insert]
      intro e2 he2 heq
      have h3 : e2.1 = k := baggageKey_injective _ _ heq
      have h4 : e2.1 ∈ es.keys := List.mem_keys_of_mem (by cases e2; exact he2)
      rw [h3] at h4
      exact hnd.1 h4
    · exact ih hnd.2 _ h

theorem foldl_insert_lookup_some (es : List (Sigma fun _ : String => String)) (m : textMap)
    (key x : String)
    (h : (es.foldl (fun m e => m.insert ( baggagePrefix ++ e.1) e.2) m).lookup key = some x) :
    (∃ e ∈ es, baggagePrefix ++ e.1 = key ∧ e.2 = x) ∨ m.lookup key = some x := by
  induction es generalizing m with
  | nil => exact Or.inr h
  | cons e es ih =>
    rw [List.foldl_cons] at h
    rcases ih _ h with ⟨e2, he2, hk, hx⟩ | h2
    · exact Or.inl ⟨e2, List.mem_cons_of_mem _ he2, hk, hx⟩
    · by_cases hk : key = baggagePrefix ++ e.1
      · subst hk
        rw [AList.lookup_insert] at h2
        exact Or.inl ⟨e, List.mem_cons_self _ _, rfl, Option.some.inj h2⟩
      · rw [AList.lookup_insert_ne hk] at h2
        exact Or.inr h2

/-! ## The contract of the span-context codec -/

/-- `Extract` on a text map, in terms of what the map holds under the trace-id
and span-id keys. -/
theorem Extract_textMap (lower : String → String) (m : textMap) :
    Extract lower (.textMap m) =
      match m.lookup traceHeader with
      | none => .error .ErrSpanContextNotFound
      | some tv =>
        match ParseUint tv with
        | none => .error .ErrSpanContextCorrupted
        | some traceID =>
          match m.lookup spanHeader with
          | none => .error .ErrSpanContextCorrupted
          | some sv =>
            match ParseUint sv with
            | none => .error .ErrSpanContextCorrupted
            | some spanID =>
              .ok { (Extract.scan lower m).sc with traceID := traceID, spanID := spanID } := by
  have h1 : (Extract.scan lower m).trace = m.lookup traceHeader :=
    scan_trace lower m.entries m.nodupKeys _ rfl
  have h2 : (Extract.scan lower m).span = m.lookup spanHeader :=
    scan_span lower m.entries m.nodupKeys _ rfl
  simp only [Extract, h1, h2]

/-- C12: on a text-map carrier with no trace-id entry, whatever else it holds,
`Extract` fails with `ErrSpanContextNotFound` (whatever the lower-casing of
strings is). -/
theorem Extract_not_found (lower : String → String) (m : textMap) (h : traceHeader ∉ m) :
    Extract lower (.textMap m) = .error .ErrSpanContextNotFound := by
  rw [Extract_textMap, AList.lookup_eq_none.mpr h]

/-- Witness of C12: the empty carrier and the carrier holding only a span id,
as in `TestTracerExtract`. -/
theorem Extract_not_found_witness :
    (traceHeader ∉ ((∅ : textMap).insert spanHeader "1") ∧
      Extract asciiToLower (.textMap ((∅ : textMap).insert spanHeader "1"))
        = .error .ErrSpanContextNotFound) ∧
    Extract asciiToLower (carry []) = .error .ErrSpanContextNotFound ∧
    Extract asciiToLower (carry [(spanHeader, "1")]) = .error .ErrSpanContextNotFound ∧
    Extract asciiToLower (carry [(spanHeader, "a"), ( baggagePrefix ++ "x", "y")])
      = .error .ErrSpanContextNotFound :=
  ⟨⟨by decide, Extract_not_found asciiToLower _ (by decide)⟩, by decide, by decide, by decide⟩

/-- C13: on a text-map carrier holding the value `tv` under the trace-id key,
`Extract` never fails with `ErrSpanContextNotFound`; it fails with
`ErrSpanContextCorrupted` exactly when `tv` does not parse, or there is no
span-id entry, or the span-id value does not parse; otherwise it succeeds with
the two parsed ids (whatever the lower-casing of strings is). -/
theorem Extract_corrupted_iff (lower : String → String) (m : textMap) (tv : String)
    (h : m.lookup traceHeader = some tv) :
    Extract lower (.textMap m) ≠ .error .ErrSpanContextNotFound ∧
    (Extract lower (.textMap m) = .error .ErrSpanContextCorrupted ↔
      (ParseUint tv = none ∨ m.lookup spanHeader = none ∨
        ∃ sv, m.lookup spanHeader = some sv ∧ ParseUint sv = none)) ∧
    (∀ sv traceID spanID, m.lookup spanHeader = some sv → ParseUint tv = some traceID →
      ParseUint sv = some spanID →
      ∃ sc, Extract lower (.textMap m) = .ok sc ∧ sc.traceID = traceID ∧
        sc.spanID = spanID) := by
  rw [Extract_textMap, h]
  cases h1 : ParseUint tv with
  | none => simp [h1]
  | some traceID =>
    cases h2 : m.lookup spanHeader with
    | none => simp [h1, h2]
    | some sv =>
      cases h3 : ParseUint sv with
      | none =>
        simp only [h1, h2, h3]
        refine ⟨by simp, by simp [h3], ?_⟩
        intro sv2 t2 s2 hsv _ hp
        rw [← Option.some.inj hsv, h3] at hp
        simp at hp
      | some spanID =>
        simp only [h1, h2, h3]
        refine ⟨by simp, by simp [h3], ?_⟩
        intro sv2 t2 s2 hsv ht hp
        rw [← Option.some.inj hsv, h3] at hp
        exact ⟨_, rfl, Option.some.inj ht, Option.some.inj hp⟩

/-- Witness of C13: the carriers of `TestTracerExtract`, an unparsable trace
id alone, an unparsable span id next to a valid trace id and a baggage entry,
and two valid ids. -/
theorem Extract_corrupted_iff_witness :
    (((∅ : textMap).insert traceHeader "a").lookup traceHeader = some "a" ∧
      Extract asciiToLower (.textMap ((∅ : textMap).insert traceHeader "a"))
        ≠ .error .ErrSpanContextNotFound) ∧
    Extract asciiToLower (carry [(traceHeader, "a")]) = .error .ErrSpanContextCorrupted ∧
    Extract asciiToLower
        (carry [(spanHeader, "a"), (traceHeader, "2"), ( baggagePrefix ++ "x", "y")])
      = .error .ErrSpanContextCorrupted ∧
    Extract asciiToLower (carry [(traceHeader, "2")]) = .error .ErrSpanContextCorrupted ∧
    (Extract asciiToLower (carry [(traceHeader, "1"), (spanHeader, "2")])).toOption.map
        (fun sc => (sc.traceID, sc.spanID)) = some (1, 2) ∧
    ParseUint "a" = none ∧ ParseUint "" = none ∧ ParseUint "-1" = none ∧
    ParseUint "18446744073709551615" = some (2 ^ 64 - 1) ∧
    ParseUint "18446744073709551616" = none :=
  ⟨⟨by decide, (Extract_corrupted_iff asciiToLower _ "a" (by decide)).1⟩,
    by decide, by decide, by decide, by decide, by decide, by decide, by decide, by decide,
    by decide⟩

/-- C14: `Inject` checks the carrier first: a carrier that is not a text map
gives `ErrInvalidCarrier`, whatever the context; then a text map and a context
whose trace id or span id is zero give `ErrInvalidSpanContext` and leave the
carrier as it was; a text map and a context with both ids nonzero give no
error. So do the four calls of `TestTracerInject`. -/
theorem Inject_errors (context : spanContext) (v : Int) (m : textMap) :
    Inject context (.other v) = (some .ErrInvalidCarrier, .other v) ∧
    ((context.traceID = 0 ∨ context.spanID = 0) →
      Inject context (.textMap m) = (some .ErrInvalidSpanContext, .textMap m)) ∧
    ((context.traceID ≠ 0 ∧ context.spanID ≠ 0) → (Inject context (.textMap m)).1 = none) ∧
    (Inject { traceID := 0, spanID := 0, baggage := ∅ } (.other 2)).1
      = some .ErrInvalidCarrier ∧
    (Inject { traceID := 0, spanID := 0, baggage := ∅ } (.textMap ∅)).1
      = some .ErrInvalidSpanContext ∧
    (Inject { traceID := 2, spanID := 0, baggage := ∅ } (.textMap ∅)).1
      = some .ErrInvalidSpanContext ∧
    (Inject { traceID := 2, spanID := 1, baggage := ∅ } (.textMap ∅)).1 = none := by
  refine ⟨rfl, ?_, ?_, by decide, by decide, by decide, by decide⟩
  · intro h
    simp [Inject, h]
  · intro h
    have h2 : ¬ (context.traceID = 0 ∨ context.spanID = 0) := by
      intro h3
      rcases h3 with h3 | h3
      · exact h.1 h3
      · exact h.2 h3
    simp [Inject, h2]

/-- What `Inject` leaves in a text map `m` for a context with both ids nonzero. -/
theorem Inject_textMap (context : spanContext) (m : textMap)
    (h1 : context.traceID ≠ 0) (h2 : context.spanID ≠ 0) :
    Inject context (.textMap m) =
      (none, .textMap (context.baggage.entries.foldl
        (fun m e => m.insert ( baggagePrefix ++ e.1) e.2)
        ((m.insert traceHeader (FormatUint context.traceID)).insert spanHeader
          (FormatUint context.spanID)))) := by
  have h : ¬ (context.traceID = 0 ∨ context.spanID = 0) := by
    intro h3
    rcases h3 with h3 | h3
    · exact h1 h3
    · exact h2 h3
  simp [Inject, h]

/-- C15: a successful `Inject` of a context with both ids nonzero into a text
map leaves the decimal string of the trace id under the trace-id key, the
decimal string of the span id under the span-id key and, for every baggage
entry `(k, v)`, the value `v` under the baggage prefix followed by `k` as it
is; every other key holds what it held. -/
theorem Inject_writes (context : spanContext) (m : textMap)
    (h1 : context.traceID ≠ 0) (h2 : context.spanID ≠ 0) :
    ∃ m2 : textMap, Inject context (.textMap m) = (none, .textMap m2) ∧
      m2.lookup traceHeader = some (Nat.repr context.traceID) ∧
      m2.lookup spanHeader = some (Nat.repr context.spanID) ∧
      (∀ k v, context.baggage.lookup k = some v →
        m2.lookup ( baggagePrefix ++ k) = some v) ∧
      (∀ key, key ≠ traceHeader → key ≠ spanHeader →
        (∀ k ∈ context.baggage.keys, key ≠ baggagePrefix ++ k) →
        m2.lookup key = m.lookup key) := by
  refine ⟨_, Inject_textMap context m h1 h2, ?_, ?_, ?_, ?_⟩
  · rw [foldl_insert_lookup_of_ne _ _ _ (fun e _ => baggageKey_ne_traceHeader e.1),
      AList.lookup_insert_ne traceHeader_ne_spanHeader, AList.lookup_insert]
    rfl
  · rw [foldl_insert_lookup_of_ne _ _ _ (fun e _ => baggageKey_ne_spanHeader e.1),
      AList.lookup_insert]
    rfl
  · intro k v hkv
    exact foldl_insert_lookup_mem _ context.baggage.nodupKeys _ k v
      (AList.mem_lookup_iff.mp hkv)
  · intro key hk1 hk2 hk3
    rw [foldl_insert_lookup_of_ne, AList.lookup_insert_ne hk2, AList.lookup_insert_ne hk1]
    intro e he heq
    have h4 : e.1 ∈ context.baggage.keys := List.mem_keys_of_mem (by cases e; exact he)
    exact hk3 e.1 h4 heq.symm

/-- Witness of C15: the context and the empty carrier of `TestTracerInject`. -/
theorem Inject_writes_witness :
    ((1 : Nat) ≠ 0 ∧ (2 : Nat) ≠ 0) ∧
    (∃ m2 : textMap,
      Inject injectContext (.textMap ∅) = (none, .textMap m2) ∧
      m2.lookup traceHeader = some "1" ∧ m2.lookup spanHeader = some "2" ∧
      m2.lookup ( baggagePrefix ++ "A") = some "B" ∧
      m2.lookup ( baggagePrefix ++ "C") = some "D") :=
  ⟨⟨by decide, by decide⟩,
    (Inject_writes injectContext ∅ (by decide) (by decide)).imp
      (fun _ h => ⟨h.1, h.2.1, h.2.2.1, h.2.2.2.1 "A" "B" (by decide),
        h.2.2.2.1 "C" "D" (by decide)⟩)⟩

/-- Baggage keys stored in lower-cased form, as `setBaggageItem` stores them,
stay pairwise distinct when lower-cased. -/
theorem keys_distinct_of_normalized (lower : String → String) (baggage : textMap)
    (hn : ∀ k ∈ baggage.keys, lower k = k) :
    ∀ k1 ∈ baggage.keys, ∀ k2 ∈ baggage.keys, lower k1 = lower k2 → k1 = k2 := by
  intro k1 h1 k2 h2 h
  rw [hn k1 h1, hn k2 h2] at h
  exact h

/-- C11, as amended: whatever the lower-casing `lower` of strings is, for a
complete context (both ids nonzero, and `uint64`) whose baggage keys stay
pairwise distinct when lower-cased, `Inject` into an empty text map succeeds,
and `Extract` on that map, in whatever order the scan visits its entries,
succeeds with the same trace id, the same span id and, for every baggage entry
`(k, v)`, the value `v` when `k` is looked up case-insensitively. -/
theorem Inject_Extract_roundtrip (lower : String → String) (context : spanContext)
    (h1 : context.traceID ≠ 0) (h2 : context.spanID ≠ 0)
    (h3 : context.traceID < 2 ^ 64) (h4 : context.spanID < 2 ^ 64)
    (hd : ∀ k1 ∈ context.baggage.keys, ∀ k2 ∈ context.baggage.keys,
      lower k1 = lower k2 → k1 = k2) :
    ∃ m : textMap, Inject context (.textMap ∅) = (none, .textMap m) ∧
      ∀ c : textMap, c.entries.Perm m.entries →
        ∃ got, Extract lower (.textMap c) = .ok got ∧
          got.traceID = context.traceID ∧ got.spanID = context.spanID ∧
          ∀ k v, context.baggage.lookup k = some v → got.baggageItem lower k = v := by
  obtain ⟨m, hm, hmt, hms, hmb, _⟩ := Inject_writes context ∅ h1 h2
  refine ⟨m, hm, ?_⟩
  intro c hc
  have hct : c.lookup traceHeader = some (FormatUint context.traceID) := by
    rw [AList.perm_lookup hc]
    exact hmt
  have hcs : c.lookup spanHeader = some (FormatUint context.spanID) := by
    rw [AList.perm_lookup hc]
    exact hms
  refine ⟨{ (Extract.scan lower c).sc with
      traceID := context.traceID, spanID := context.spanID }, ?_, rfl, rfl, ?_⟩
  · rw [Extract_textMap]
    simp only [hct, hcs, ParseUint_FormatUint _ h3, ParseUint_FormatUint _ h4]
  · intro k v hkv
    have hkmem : k ∈ context.baggage.keys :=
      List.mem_keys_of_mem (AList.mem_lookup_iff.mp hkv)
    have hfound : (Extract.scan lower c).sc.baggage.lookup (lower k) = some v := by
      apply scan_baggage_found
      · intro e he hp hlow
        have hem : e ∈ m.entries := hc.mem_iff.mp he
        have hlk : m.lookup e.1 = some e.2 := by
          apply AList.mem_lookup_iff.mpr
          cases e
          exact hem
        have hm2 := (Prod.mk.inj ((Inject_textMap context ∅ h1 h2).symm.trans hm)).2
        have hm3 : m = _ := (Carrier.textMap.inj hm2).symm
        rw [hm3] at hlk
        rcases foldl_insert_lookup_some _ _ _ _ hlk with ⟨e2, he2, hk2, hv2⟩ | hbase
        · have hstrip : String.mk (e.1.data.drop baggagePrefix.data.length) = e2.1 := by
            rw [← hk2]
            exact baggageKey_strip e2.1
          rw [hstrip] at hlow
          have he2mem : e2.1 ∈ context.baggage.keys :=
            List.mem_keys_of_mem (by cases e2; exact he2)
          have hkeq : e2.1 = k := hd _ he2mem _ hkmem hlow
          have hl2 : context.baggage.lookup e2.1 = some e2.2 := by
            apply AList.mem_lookup_iff.mpr
            cases e2
            exact he2
          rw [hkeq, hkv] at hl2
          rw [← hv2]
          exact (Option.some.inj hl2).symm
        · exfalso
          have hkey := key_of_isPrefix e.1 hp
          by_cases hs : e.1 = spanHeader
          · rw [hs] at hkey
            exact baggageKey_ne_spanHeader _ hkey.symm
          · rw [AList.lookup_insert_ne hs] at hbase
            by_cases ht : e.1 = traceHeader
            · rw [ht] at hkey
              exact baggageKey_ne_traceHeader _ hkey.symm
            · rw [AList.lookup_insert_ne ht] at hbase
              simp at hbase
      · refine ⟨⟨ baggagePrefix ++ k, v⟩, ?_, baggageKey_isPrefix k, ?_⟩
        · exact hc.mem_iff.mpr (AList.mem_lookup_iff.mp (hmb k v hkv))
        · rw [baggageKey_strip]
    simp [spanContext.baggageItem, hfound]

/-- Witness of C11 as amended: the consistency test of `TestTracerExtract`,
trace id 1, span id 2 and the baggage `a: B`, `C: D`, built by a struct
literal: its key `C` is not in lower-cased form, and its two keys stay
distinct when lower-cased. -/
theorem Inject_Extract_roundtrip_witness :
    (consistencyContext.traceID ≠ 0 ∧ consistencyContext.spanID ≠ 0 ∧
      consistencyContext.traceID < 2 ^ 64 ∧ consistencyContext.spanID < 2 ^ 64 ∧
      ∀ k1 ∈ consistencyContext.baggage.keys, ∀ k2 ∈ consistencyContext.baggage.keys,
        asciiToLower k1 = asciiToLower k2 → k1 = k2) ∧
    (∃ m : textMap, Inject consistencyContext (.textMap ∅) = (none, .textMap m) ∧
      ∀ c : textMap, c.entries.Perm m.entries →
        ∃ got, Extract asciiToLower (.textMap c) = .ok got ∧
          got.traceID = consistencyContext.traceID ∧ got.spanID = consistencyContext.spanID ∧
          ∀ k v, consistencyContext.baggage.lookup k = some v →
            got.baggageItem asciiToLower k = v) ∧
    (Extract asciiToLower (Inject consistencyContext (.textMap ∅)).2).toOption.map
        (fun got => (got.traceID, got.spanID, got.baggageItem asciiToLower "c",
          got.baggageItem asciiToLower "a"))
      = some (1, 2, "D", "B") ∧
    consistencyContext.baggage.keys = ["C", "a"] ∧ asciiToLower "C" ≠ "C" :=
  ⟨⟨by decide, by decide, by decide, by decide, by decide⟩,
    Inject_Extract_roundtrip asciiToLower consistencyContext (by decide) (by decide)
      (by decide) (by decide) (by decide),
    by decide, by decide, by decide⟩

/-- Counterexample to C11 as stated: the complete context with the baggage
`a: B`, `A: C`, built by a struct literal as the contexts of the tests are, is
injected without error, yet whatever lower-casing sends `A` and `a` to the
same string (as `strings.ToLower` does), no context at all gives both baggage
values back under a case-insensitive lookup, so none that `Extract` returns
does; the context extracted here gives `C` for both keys. -/
theorem Inject_Extract_roundtrip_counterexample :
    collidingContext.traceID ≠ 0 ∧ collidingContext.spanID ≠ 0 ∧
    collidingContext.baggage.lookup "a" = some "B" ∧
    collidingContext.baggage.lookup "A" = some "C" ∧
    (Inject collidingContext (.textMap ∅)).1 = none ∧
    (Extract asciiToLower (Inject collidingContext (.textMap ∅)).2).toOption.map
        (fun got => (got.traceID, got.spanID, got.baggageItem asciiToLower "a",
          got.baggageItem asciiToLower "A"))
      = some (1, 2, "C", "C") ∧
    (∀ lower : String → String, lower "A" = lower "a" →
      ¬ ∃ got : spanContext,
        Extract lower (Inject collidingContext (.textMap ∅)).2 = .ok got ∧
        got.traceID = collidingContext.traceID ∧ got.spanID = collidingContext.spanID ∧
        ∀ k v, collidingContext.baggage.lookup k = some v → got.baggageItem lower k = v) ∧
    asciiToLower "A" = asciiToLower "a" := by
  refine ⟨by decide, by decide, by decide, by decide, by decide, by decide, ?_, by decide⟩
  rintro lower hlow ⟨got, _, _, _, hb⟩
  have ha : got.baggageItem lower "a" = "B" := hb "a" "B" (by decide)
  have hA : got.baggageItem lower "A" = "C" := hb "A" "C" (by decide)
  unfold spanContext.baggageItem at ha hA
  rw [hlow, ha] at hA
  exact absurd hA (by decide)

end mocktracer
